import Mathlib

/-!
# easyConfig: the document store of `src/components/JsonEditor.js`

A shallow embedding of the state of the `JsonEditor` component, of the handlers that
load a document into it and of the functions that edit it, followed by the properties
proved about them.

## Modelling conventions

* A JavaScript number is a `JSNum`: `NaN`, `+Infinity`, `-Infinity` or a finite
  value.  A finite double is represented by the rational it denotes.  A sum, the
  value of a numeric literal read by `parseFloat` and the value of a JSON number are
  rounded to the nearest double, ties to even, and overflow to an infinity
  (`roundDouble`).  The sign of zero is not represented.
* A JSON value is a `JSVal`.  An object is the list of its own properties
  (key, value), read with `getProp` and updated with `setProp`, which is the
  object literal `{...o, [k]: v}`.  The enumeration order of keys plays no role
  in any statement.
* The editing functions act on a document of the shape the editor renders: an object
  whose `locations` property maps category names to arrays of objects (`Doc`).  All
  other top-level properties (`name`, `deathHeight`, ...) are kept in `Doc.top`; field
  values of an entry are arbitrary JSON values.
* An updater returns `none` in two cases.  When the code throws, no new value is
  stored.  When the value the code stores is no longer a document of that shape (an
  array that holds `undefined`), the store does change, to a value this development
  does not describe.
* A string is read through its list of characters.  `JSON.parse` on a text is
  `JSON.parseText`, a reader of the JSON grammar.  A lone surrogate, which an escape
  of a JSON string can denote and no `Char` can hold, is held as `U+FFFD`: which texts
  are JSON is exact, the content of such a string is not.
* The ingestion handlers map the component state (`State`) before the call to the
  state after the call and its callbacks have run.  What the host delivers is an
  input: the picked file with the text read from it, and the network as a function
  `fetch` from the requested URL to the response, or to `none` when the request
  fails.
-/

set_option autoImplicit false

namespace EasyConfig

/-! ## Numbers -/

/-- A JavaScript number: the three non-finite values and the finite ones. -/
inductive JSNum where
  | nan
  | posInf
  | negInf
  | fin (q : ℚ)
  deriving DecidableEq

namespace JSNum

/-- The number is neither `NaN` nor an infinity (`Number.isFinite`). -/
def isFinite : JSNum → Bool
  | fin _ => true
  | _ => false

end JSNum

/-- The integer nearest to `r`, the even one of the two when `r` lies half way. -/
def roundHalfEven (r : ℚ) : ℤ :=
  if Int.fract r < 1 / 2 then ⌊r⌋
  else if 1 / 2 < Int.fract r then ⌊r⌋ + 1
  else if ⌊r⌋ % 2 = 0 then ⌊r⌋
  else ⌊r⌋ + 1

/-- The exponent of the spacing of the doubles at a positive `a`: with
`2 ^ e ≤ a < 2 ^ (e + 1)` the doubles there are the multiples of `2 ^ (e - 52)`, and
of `2 ^ (-1074)` below the normal range. -/
def ulpExponent (a : ℚ) : ℤ :=
  max (Int.log 2 a) (-1022) - 52

/-- The multiple of the spacing nearest to a non-negative `a`, ties to even. -/
def roundMagnitude (a : ℚ) : ℚ :=
  (roundHalfEven (a / (2 : ℚ) ^ ulpExponent a) : ℚ) * (2 : ℚ) ^ ulpExponent a

/-- The Number value of a real: the nearest double, ties to even, and an infinity when
the rounded magnitude reaches `2 ^ 1024`. -/
def roundDouble (q : ℚ) : JSNum :=
  if (2 : ℚ) ^ (1024 : ℤ) ≤ roundMagnitude |q| then
    if q < 0 then JSNum.negInf else JSNum.posInf
  else if q < 0 then JSNum.fin (-roundMagnitude |q|)
  else JSNum.fin (roundMagnitude |q|)

namespace JSNum

/-- JavaScript `a + b` on two numbers: the exact sum of two finite numbers is rounded
to a double. -/
def add : JSNum → JSNum → JSNum
  | nan, _ => nan
  | _, nan => nan
  | posInf, negInf => nan
  | negInf, posInf => nan
  | posInf, _ => posInf
  | _, posInf => posInf
  | negInf, _ => negInf
  | _, negInf => negInf
  | fin a, fin b => roundDouble (a + b)

/-- JavaScript `n || 0` on a number: `NaN` and zero are falsy, every other number
is truthy and is the result. -/
def orZero : JSNum → JSNum
  | nan => fin 0
  | fin q => if q = 0 then fin 0 else fin q
  | n => n

/-- Arithmetic negation. -/
def neg : JSNum → JSNum
  | nan => nan
  | posInf => negInf
  | negInf => posInf
  | fin q => fin (-q)

end JSNum

/-! ## `parseFloat` on strings -/

/-- The code points removed by `TrimString`: ECMAScript `WhiteSpace` and
`LineTerminator`. -/
def isWhiteSpace (c : Char) : Bool :=
  c.toNat ∈ [0x09, 0x0A, 0x0B, 0x0C, 0x0D, 0x20, 0xA0, 0x1680, 0x2000, 0x2001, 0x2002,
    0x2003, 0x2004, 0x2005, 0x2006, 0x2007, 0x2008, 0x2009, 0x200A, 0x2028, 0x2029,
    0x202F, 0x205F, 0x3000, 0xFEFF]

/-- The value of a run of decimal digits. -/
def natOfDigits (ds : List Char) : Nat :=
  ds.foldl (fun n c => 10 * n + (c.toNat - 48)) 0

/-- The longest `StrUnsignedDecimalLiteral` a string starts with, without the
`Infinity` alternative. -/
structure DecimalLiteral where
  /-- Digits of the integer part followed by the digits of the fraction. -/
  mantissa : Nat
  /-- Power of ten the mantissa is scaled by. -/
  exponent : Int
  deriving DecidableEq

/-- The value of an optional `ExponentPart` at the head of `cs`: `e` or `E`, an
optional sign and at least one digit; `0` when there is none. -/
def parseExponent (cs : List Char) : Int :=
  match cs with
  | c :: t =>
    if c = 'e' ∨ c = 'E' then
      match t with
      | '+' :: u =>
        if (u.takeWhile Char.isDigit).isEmpty then 0
        else (natOfDigits (u.takeWhile Char.isDigit) : Int)
      | '-' :: u =>
        if (u.takeWhile Char.isDigit).isEmpty then 0
        else -(natOfDigits (u.takeWhile Char.isDigit) : Int)
      | u =>
        if (u.takeWhile Char.isDigit).isEmpty then 0
        else (natOfDigits (u.takeWhile Char.isDigit) : Int)
    else 0
  | [] => 0

/-- The longest prefix of `cs` of the forms `digits . digits? exp?`, `. digits exp?`
or `digits exp?`; `none` when `cs` starts with none of them. -/
def parseDecimal (cs : List Char) : Option DecimalLiteral :=
  let ip := cs.takeWhile Char.isDigit
  let r1 := cs.dropWhile Char.isDigit
  match r1 with
  | '.' :: t =>
    let fp := t.takeWhile Char.isDigit
    let r2 := t.dropWhile Char.isDigit
    if ip.isEmpty ∧ fp.isEmpty then none
    else some ⟨natOfDigits (ip ++ fp), parseExponent r2 - fp.length⟩
  | _ =>
    if ip.isEmpty then none
    else some ⟨natOfDigits ip, parseExponent r1⟩

/-- The characters of the literal `Infinity`. -/
def infinityChars : List Char := ['I', 'n', 'f', 'i', 'n', 'i', 't', 'y']

/-- A `StrUnsignedDecimalLiteral`: `Infinity` or a decimal literal. -/
inductive UnsignedLiteral where
  | infinity
  | decimal (d : DecimalLiteral)
  deriving DecidableEq

/-- A `StrDecimalLiteral`: an unsigned literal with its sign. -/
structure SignedLiteral where
  /-- The literal follows a `-`. -/
  negative : Bool
  /-- The literal after the optional sign. -/
  body : UnsignedLiteral
  deriving DecidableEq

/-- The unsigned literal at the head of `cs`, `none` when `cs` starts with none. -/
def parseUnsigned (cs : List Char) : Option UnsignedLiteral :=
  if infinityChars.isPrefixOf cs then some UnsignedLiteral.infinity
  else (parseDecimal cs).map UnsignedLiteral.decimal

/-- The signed literal at the head of `cs`. -/
def parseSigned (cs : List Char) : Option SignedLiteral :=
  match cs with
  | '+' :: t => (parseUnsigned t).map (SignedLiteral.mk false)
  | '-' :: t => (parseUnsigned t).map (SignedLiteral.mk true)
  | _ => (parseUnsigned cs).map (SignedLiteral.mk false)

/-- The number an unsigned literal denotes (`StringNumericValue`): the mathematical
value of a decimal literal, rounded to a double. -/
def UnsignedLiteral.value : UnsignedLiteral → JSNum
  | .infinity => JSNum.posInf
  | .decimal d => roundDouble ((d.mantissa : ℚ) * (10 : ℚ) ^ d.exponent)

/-- The number a signed literal denotes. -/
def SignedLiteral.value (l : SignedLiteral) : JSNum :=
  if l.negative then l.body.value.neg else l.body.value

/-- The literal `parseFloat(s)` reads: leading white space is dropped and the longest
prefix that is a `StrDecimalLiteral` is taken. -/
def parseFloatLiteral (s : String) : Option SignedLiteral :=
  parseSigned (s.toList.dropWhile isWhiteSpace)

/-- JavaScript `parseFloat(s)` on a string: the value of the literal `s` starts
with, `NaN` when there is none. -/
def parseFloat (s : String) : JSNum :=
  match parseFloatLiteral s with
  | some l => l.value
  | none => JSNum.nan

/-! ## JSON values -/

/-- A JSON value as held in the store. -/
inductive JSVal where
  | null
  | bool (b : Bool)
  | num (n : JSNum)
  | str (s : String)
  | arr (xs : List JSVal)
  | obj (ps : List (String × JSVal))

/-- Own property lookup `o[k]`; `none` is `undefined`. -/
def getProp {α : Type} : List (String × α) → String → Option α
  | [], _ => none
  | (k', v) :: t, k => if k' = k then some v else getProp t k

/-- The object `{...o, [k]: v}`: `k` is overwritten where it is, or added. -/
def setProp {α : Type} : List (String × α) → String → α → List (String × α)
  | [], k, v => [(k, v)]
  | (k', v') :: t, k, v => if k' = k then (k, v) :: t else (k', v') :: setProp t k v

mutual
/-- Whether `ToString(v)` throws a `TypeError`: an object with an own `toString`
property (never callable in a JSON value) has no primitive value, and an array
joins the strings of all its elements. -/
def toStringThrows : JSVal → Bool
  | .arr xs => toStringThrowsList xs
  | .obj ps => (getProp ps "toString").isSome
  | _ => false
/-- Whether `ToString` throws on some element of the list. -/
def toStringThrowsList : List JSVal → Bool
  | [] => false
  | v :: t => toStringThrows v || toStringThrowsList t
end

mutual
/-- The number `parseFloat(ToString(v))` when `ToString(v)` does not throw.  A
number prints as a literal that reads back as itself; `null`, `true`, `false`
and `[object Object]` start with no literal; an array prints as its elements
joined by commas, so only its first element can contribute a literal. -/
def parseFloatOfString : JSVal → JSNum
  | .num n => n
  | .str s => parseFloat s
  | .arr xs => parseFloatOfHead xs
  | _ => JSNum.nan
/-- The number read from the string of the first element of the list. -/
def parseFloatOfHead : List JSVal → JSNum
  | [] => JSNum.nan
  | v :: _ => parseFloatOfString v
end

/-- JavaScript `parseFloat(v)` on a property value `v`.  The argument `none` is
`undefined`, which prints as `undefined` and reads as `NaN`; the result `none` is a
thrown `TypeError`. -/
def parseFloatVal : Option JSVal → Option JSNum
  | none => some JSNum.nan
  | some v => if toStringThrows v then none else some (parseFloatOfString v)

/-! ## Arrays -/

/-- Helper of `arrayMap`: the callback sees the element and its index, counted from `i`. -/
def arrayMapFrom {α β : Type} (f : α → Nat → β) : Nat → List α → List β
  | _, [] => []
  | i, x :: t => f x i :: arrayMapFrom f (i + 1) t

/-- The method `Array.prototype.map` with a callback `(item, i) => ...`. -/
def arrayMap {α β : Type} (f : α → Nat → β) (xs : List α) : List β :=
  arrayMapFrom f 0 xs

/-- Helper of `arrayFilter`: the callback sees the element and its index, counted from `i`. -/
def arrayFilterFrom {α : Type} (p : α → Nat → Bool) : Nat → List α → List α
  | _, [] => []
  | i, x :: t => if p x i then x :: arrayFilterFrom p (i + 1) t else arrayFilterFrom p (i + 1) t

/-- The method `Array.prototype.filter` with a callback `(item, i) => ...`. -/
def arrayFilter {α : Type} (p : α → Nat → Bool) (xs : List α) : List α :=
  arrayFilterFrom p 0 xs

/-- The position `Array.prototype.splice` starts at for an array of length `len`: a
negative `start` counts from the end, and the result is clamped to `0 .. len`. -/
def spliceStart (len : Nat) (start : Int) : Nat :=
  if start < 0 then ((len : Int) + start).toNat else min start.toNat len

/-- The call `xs.splice(start, deleteCount, ...items)`: the array after the call and
the array of removed elements the call returns. -/
def splice {α : Type} (xs : List α) (start : Int) (deleteCount : Nat) (items : List α) :
    List α × List α :=
  let s := spliceStart xs.length start
  let dc := min deleteCount (xs.length - s)
  (xs.take s ++ items ++ xs.drop (s + dc), (xs.drop s).take dc)

/-! ## The document store -/

/-- One entry of a category: the own properties of the object. -/
abbrev Entry := List (String × JSVal)

/-- The document held in the `json` state. -/
structure Doc where
  /-- The top-level properties other than `locations`. -/
  top : List (String × JSVal)
  /-- The `locations` object: category name to array of entries. -/
  locations : List (String × List Entry)

/-- The `bulkMove` state, initially `{x: 0, y: 0, z: 0}`. -/
structure BulkMove where
  x : JSNum
  y : JSNum
  z : JSNum

/-- The value `useState` gives `bulkMove` at first, and `applyBulkMove` resets it to. -/
def BulkMove.zero : BulkMove := ⟨JSNum.fin 0, JSNum.fin 0, JSNum.fin 0⟩

/-- The fields edited through a number input: `['x', 'y', 'z', 'yaw', 'pitch']`. -/
def numericParams : List String := ["x", "y", "z", "yaw", "pitch"]

/-- An array of JSON values as an array of entries, when each element is an object. -/
def entriesOfJS : List JSVal → Option (List Entry)
  | [] => some []
  | JSVal.obj e :: t => (entriesOfJS t).map (fun es => e :: es)
  | _ :: _ => none

/-- The properties of a JSON object as a `locations` object, when each value is an
array of objects. -/
def locationsOfProps : List (String × JSVal) → Option (List (String × List Entry))
  | [] => some []
  | (c, JSVal.arr xs) :: t =>
    match entriesOfJS xs, locationsOfProps t with
    | some es, some l => some ((c, es) :: l)
    | _, _ => none
  | _ :: _ => none

/-- A JSON value as a `locations` object. -/
def locationsOfJS : JSVal → Option (List (String × List Entry))
  | JSVal.obj ps => locationsOfProps ps
  | _ => none

/-- The updater of `handleMapParamChange(param, value)`: `{...prevJson, [param]: value}`. -/
def handleMapParamChange (param : String) (value : JSVal) (prevJson : Doc) : Option Doc :=
  if param = "locations" then
    (locationsOfJS value).map (fun l => { prevJson with locations := l })
  else
    some { prevJson with top := setProp prevJson.top param value }

/-- The `onChange` handler of the Name input. -/
def nameOnChange (targetValue : String) (prevJson : Doc) : Option Doc :=
  handleMapParamChange "name" (JSVal.str targetValue) prevJson

/-- The `onChange` handler of the Death Height input:
`handleMapParamChange('deathHeight', parseFloat(e.target.value))`. -/
def deathHeightOnChange (targetValue : String) (prevJson : Doc) : Option Doc :=
  handleMapParamChange "deathHeight" (JSVal.num (parseFloat targetValue)) prevJson

/-- The value `handleLocationChange` stores in `param`:
`['x', 'y', 'z', 'yaw', 'pitch'].includes(param) ? parseFloat(value) || 0 : value`. -/
def storedValue (param value : String) : JSVal :=
  if numericParams.contains param then JSVal.num (parseFloat value).orZero
  else JSVal.str value

/-- The updater of `handleLocationChange(category, index, param, value)`. -/
def handleLocationChange (category : String) (index : Int) (param value : String)
    (prevJson : Doc) : Option Doc :=
  match getProp prevJson.locations category with
  | none => none
  | some items =>
    some { prevJson with
      locations := setProp prevJson.locations category
        (arrayMap (fun item i =>
          if (i : Int) = index then setProp item param (storedValue param value) else item)
          items) }

/-- The entry `addLocation` creates:
`{x: 0, y: 0, z: 0, yaw: 0, pitch: 0, customOptions: {}}`. -/
def newLocation : Entry :=
  [("x", JSVal.num (JSNum.fin 0)), ("y", JSVal.num (JSNum.fin 0)),
   ("z", JSVal.num (JSNum.fin 0)), ("yaw", JSVal.num (JSNum.fin 0)),
   ("pitch", JSVal.num (JSNum.fin 0)), ("customOptions", JSVal.obj [])]

/-- The updater of `addLocation(category, index = null)`. -/
def addLocation (category : String) (index : Option Int) (prevJson : Doc) : Option Doc :=
  match getProp prevJson.locations category with
  | none => none
  | some items =>
    let updatedLocations :=
      match index with
      | some i => (splice items i 0 [newLocation]).1
      | none => items ++ [newLocation]
    some { prevJson with
      locations := setProp prevJson.locations category updatedLocations }

/-- The updater of `removeLocation(category, index)`. -/
def removeLocation (category : String) (index : Int) (prevJson : Doc) : Option Doc :=
  match getProp prevJson.locations category with
  | none => none
  | some items =>
    some { prevJson with
      locations := setProp prevJson.locations category
        (arrayFilter (fun _ i => decide ((i : Int) ≠ index)) items) }

/-- The `result` the drag-and-drop library passes to `onDragEnd`: `source.index` and,
when the drag ended over the list, `destination.index`. -/
structure DropResult where
  /-- The field `source.index`. -/
  sourceIndex : Nat
  /-- The field `destination.index`; `none` when `destination` is `null`. -/
  destinationIndex : Option Nat

/-- The array `onDragEnd` builds from `items`: the entry at `src` is spliced out and
spliced in again at `dst`.  With nothing at `src` the code splices in `undefined` and
stores the resulting array, which is no list of entries: the result is `none`. -/
def reorder (items : List Entry) (src dst : Nat) : Option (List Entry) :=
  match splice items (src : Int) 1 [] with
  | (items1, reorderedItem :: _) => some (splice items1 (dst : Int) 0 [reorderedItem]).1
  | (_, []) => none

/-- The store after `onDragEnd(result)`: `json` is the rendered document the items
are read from, `prevJson` the document the updater receives.  Without a destination
nothing is updated. -/
def onDragEnd (result : DropResult) (selectedCategory : String) (json prevJson : Doc) :
    Option Doc :=
  match result.destinationIndex with
  | none => some prevJson
  | some dst =>
    match getProp json.locations selectedCategory with
    | none => none
    | some items0 =>
      (reorder items0 result.sourceIndex dst).map (fun items =>
        { prevJson with locations := setProp prevJson.locations selectedCategory items })

/-- The updater of `handleBulkMoveChange(axis, value)`:
`{...prev, [axis]: parseFloat(value) || 0}`; only `x`, `y`, `z` are ever read. -/
def handleBulkMoveChange (axis value : String) (prev : BulkMove) : BulkMove :=
  if axis = "x" then { prev with x := (parseFloat value).orZero }
  else if axis = "y" then { prev with y := (parseFloat value).orZero }
  else if axis = "z" then { prev with z := (parseFloat value).orZero }
  else prev

/-- The entry `applyBulkMove` maps `location` to:
`{...location, x: parseFloat(location.x) + bulkMove.x, y: ..., z: ...}`. -/
def moveLocation (bulkMove : BulkMove) (location : Entry) : Option Entry :=
  match parseFloatVal (getProp location "x"), parseFloatVal (getProp location "y"),
      parseFloatVal (getProp location "z") with
  | some x, some y, some z =>
    some (setProp (setProp (setProp location "x" (JSVal.num (x.add bulkMove.x)))
      "y" (JSVal.num (y.add bulkMove.y))) "z" (JSVal.num (z.add bulkMove.z)))
  | _, _, _ => none

/-- The array `items.map(f)` for a callback that may throw. -/
def mapThrowing {α β : Type} (f : α → Option β) : List α → Option (List β)
  | [] => some []
  | x :: t =>
    match f x, mapThrowing f t with
    | some y, some ys => some (y :: ys)
    | _, _ => none

/-- The updater of `applyBulkMove()`, with the `selectedCategory` and `bulkMove` of
the render it was created in. -/
def applyBulkMove (selectedCategory : String) (bulkMove : BulkMove) (prevJson : Doc) :
    Option Doc :=
  match getProp prevJson.locations selectedCategory with
  | none => none
  | some items =>
    (mapThrowing (moveLocation bulkMove) items).map (fun moved =>
      { prevJson with locations := setProp prevJson.locations selectedCategory moved })

/-! ## The numeric fields of the entries -/

/-- The number is `NaN` (`Number.isNaN`). -/
def JSNum.isNaN : JSNum → Bool
  | JSNum.nan => true
  | _ => false

/-- Each of `x`, `y`, `z`, `yaw`, `pitch` of the entry holds a number that satisfies `P`. -/
def fieldsSatisfy (P : JSNum → Bool) (e : Entry) : Bool :=
  numericParams.all (fun k =>
    match getProp e k with
    | some (JSVal.num n) => P n
    | _ => false)

/-- Every entry of every category has its five numeric fields satisfying `P`. -/
def entriesSatisfy (P : JSNum → Bool) (d : Doc) : Bool :=
  d.locations.all (fun c => c.2.all (fieldsSatisfy P))

/-- Every entry's `x`, `y`, `z`, `yaw`, `pitch` are finite numbers. -/
def docFinite (d : Doc) : Bool :=
  entriesSatisfy JSNum.isFinite d

/-- Every entry's `x`, `y`, `z`, `yaw`, `pitch` are numbers other than `NaN`. -/
def docNoNaN (d : Doc) : Bool :=
  entriesSatisfy (fun n => !n.isNaN) d

/-- The `bulkMove` state after the three offset inputs received the raw texts `rawX`,
`rawY`, `rawZ` (an untouched input counts as the empty text, which also gives `0`). -/
def typedBulkMove (rawX rawY rawZ : String) : BulkMove :=
  handleBulkMoveChange "z" rawZ
    (handleBulkMoveChange "y" rawY (handleBulkMoveChange "x" rawX BulkMove.zero))

/-- One edit of the entries of the document, with the raw input it carries. -/
inductive Edit where
  | locationChange (category : String) (index : Int) (param value : String)
  | add (category : String) (index : Option Int)
  | remove (category : String) (index : Int)
  | drag (result : DropResult) (selectedCategory : String)
  | bulkMove (selectedCategory : String) (rawX rawY rawZ : String)

/-- The store after an edit; a drag reads the items from the document it updates. -/
def applyEdit : Edit → Doc → Option Doc
  | Edit.locationChange c i p v, d => handleLocationChange c i p v d
  | Edit.add c i, d => addLocation c i d
  | Edit.remove c i, d => removeLocation c i d
  | Edit.drag r sel, d => onDragEnd r sel d d
  | Edit.bulkMove sel rx ry rz, d => applyBulkMove sel (typedBulkMove rx ry rz) d

/-- The edits that add no offset and store no infinity: everything but a bulk move and
a change of a numeric field to a text that `parseFloat` reads as an infinity
(`Infinity`, `-Infinity`, or a literal beyond the range of the doubles such as
`1e400`). -/
def Edit.storesFinite : Edit → Bool
  | Edit.locationChange _ _ param value =>
    !(numericParams.contains param) || (parseFloat value).orZero.isFinite
  | Edit.bulkMove _ _ _ _ => false
  | _ => true

/-- The store after a sequence of edits, applied from the first to the last. -/
def applyEdits : List Edit → Doc → Option Doc
  | [], d => some d
  | e :: es, d => (applyEdit e d).bind (applyEdits es)

/-! ## Export: `JSON.stringify(json, null, 2)` and reading the text back -/

/-- A JSON text, given by its syntax tree; white space and indentation play no role
in what a text denotes.  A number literal is given by the rational it denotes.  The
grammar has no literal for `NaN` or for an infinity. -/
inductive JText where
  | null
  | bool (b : Bool)
  | number (q : ℚ)
  | string (s : String)
  | array (xs : List JText)
  | object (ps : List (String × JText))

namespace JSON

mutual
/-- The text `JSON.stringify(v, null, 2)` writes for a JSON value: a number that is not
finite is written as `null`; a finite number is written as a literal that reads back
as that number, here the literal of its exact value. -/
def stringify : JSVal → JText
  | JSVal.null => JText.null
  | JSVal.bool b => JText.bool b
  | JSVal.num (JSNum.fin q) => JText.number q
  | JSVal.num _ => JText.null
  | JSVal.str s => JText.string s
  | JSVal.arr xs => JText.array (stringifyList xs)
  | JSVal.obj ps => JText.object (stringifyProps ps)
/-- The texts of the elements of an array. -/
def stringifyList : List JSVal → List JText
  | [] => []
  | v :: t => stringify v :: stringifyList t
/-- The members written for the properties of an object. -/
def stringifyProps : List (String × JSVal) → List (String × JText)
  | [] => []
  | (k, v) :: t => (k, stringify v) :: stringifyProps t
end

mutual
/-- The value `JSON.parse` builds from a text; the value of a number literal is
rounded to a double, to an infinity when it is out of range. -/
def parse : JText → JSVal
  | JText.null => JSVal.null
  | JText.bool b => JSVal.bool b
  | JText.number q => JSVal.num (roundDouble q)
  | JText.string s => JSVal.str s
  | JText.array xs => JSVal.arr (parseList xs)
  | JText.object ps => JSVal.obj (parseProps ps [])
/-- The values of the elements of an array text. -/
def parseList : List JText → List JSVal
  | [] => []
  | t :: r => parse t :: parseList r
/-- The properties built from the members of an object text, added to `acc` from left
to right; a repeated key overwrites. -/
def parseProps : List (String × JText) → List (String × JSVal) → List (String × JSVal)
  | [], acc => acc
  | (k, t) :: r, acc => parseProps r (setProp acc k (parse t))
end

end JSON

/-- Property access `v[k]` on a JSON value that is an object. -/
def JSVal.prop : JSVal → String → Option JSVal
  | JSVal.obj ps, k => getProp ps k
  | _, _ => none

/-- The document as the JSON value held in the `json` state. -/
def Doc.toJS (d : Doc) : JSVal :=
  JSVal.obj (d.top ++
    [("locations", JSVal.obj (d.locations.map (fun c => (c.1, JSVal.arr (c.2.map JSVal.obj)))))])

/-! ## Strings -/

/-- The method `String.prototype.trim`: white space and line terminators are removed
from both ends. -/
def trim (cs : List Char) : List Char :=
  ((cs.dropWhile isWhiteSpace).reverse.dropWhile isWhiteSpace).reverse

/-- The method `String.prototype.includes`: `needle` occurs somewhere in the string. -/
def includes (needle : List Char) : List Char → Bool
  | [] => needle.isEmpty
  | c :: t => needle.isPrefixOf (c :: t) || includes needle t

/-- The method `String.prototype.split` with a separator of one character. -/
def split (sep : Char) : List Char → List (List Char)
  | [] => [[]]
  | c :: t =>
    if c = sep then [] :: split sep t
    else
      match split sep t with
      | seg :: rest => (c :: seg) :: rest
      | [] => [[c]]

/-- The value of `url.split('/').pop()`: the part of `url` after its last `/`. -/
def lastSegment (url : List Char) : List Char :=
  ((split '/' url).getLast?).getD []

/-! ## The fetch target of `handleUrlFetch` -/

/-- The characters of `https://paste.cytooxien.de/`. -/
def pasteHost : List Char := "https://paste.cytooxien.de/".toList

/-- The characters of `/raw/`. -/
def rawMarker : List Char := "/raw/".toList

/-- The URL `handleUrlFetch` passes to `fetch`: the trimmed input, rewritten to
`https://paste.cytooxien.de/raw/${pasteId}` when it starts with the paste host and
does not contain `/raw/`. -/
def fetchTarget (urlInput : String) : String :=
  let url := trim urlInput.toList
  if pasteHost.isPrefixOf url && !includes rawMarker url then
    String.mk (pasteHost ++ "raw/".toList ++ lastSegment url)
  else
    String.mk url

/-- The label `url.split('/').pop() || 'Fetched JSON'` of a fetched document. -/
def fetchedLabel (url : String) : String :=
  if (lastSegment url.toList).isEmpty then "Fetched JSON"
  else String.mk (lastSegment url.toList)

/-! ## Reading a JSON text: `JSON.parse(text)` -/

namespace JSON

/-- The white space of the JSON grammar: space, tab, line feed, carriage return. -/
def isSpace (c : Char) : Bool :=
  c = ' ' ∨ c = '\t' ∨ c = '\n' ∨ c = '\r'

/-- The text without its leading JSON white space. -/
def skipSpace (cs : List Char) : List Char :=
  cs.dropWhile isSpace

/-- The value of a hexadecimal digit. -/
def hexValue (c : Char) : Option Nat :=
  if '0' ≤ c ∧ c ≤ '9' then some (c.toNat - 48)
  else if 'a' ≤ c ∧ c ≤ 'f' then some (c.toNat - 87)
  else if 'A' ≤ c ∧ c ≤ 'F' then some (c.toNat - 55)
  else none

/-- The code unit written by the four hexadecimal digits at the head of `cs`. -/
def readHex4 (cs : List Char) : Option (Nat × List Char) :=
  match cs with
  | a :: b :: c :: d :: r =>
    match hexValue a, hexValue b, hexValue c, hexValue d with
    | some x, some y, some z, some w => some (((x * 16 + y) * 16 + z) * 16 + w, r)
    | _, _, _, _ => none
  | _ => none

/-- The character that stands for a lone surrogate: `U+FFFD`. -/
def loneSurrogate : Char := Char.ofNat 0xFFFD

/-- The characters of a string literal, read from just after its opening quote, and
the text after its closing quote.  A control character must be escaped.  An escaped
high surrogate followed by an escaped low surrogate is one character.  Any other
escaped surrogate is accepted as `JSON.parse` accepts it; it is a code unit that is no
character of this string type and is held as `loneSurrogate`. -/
def readString : Nat → List Char → Option (List Char × List Char)
  | 0, _ => none
  | _ + 1, [] => none
  | _ + 1, '"' :: r => some ([], r)
  | fuel + 1, '\\' :: r =>
    match r with
    | '"' :: r' => (readString fuel r').map (fun p => ('"' :: p.1, p.2))
    | '\\' :: r' => (readString fuel r').map (fun p => ('\\' :: p.1, p.2))
    | '/' :: r' => (readString fuel r').map (fun p => ('/' :: p.1, p.2))
    | 'b' :: r' => (readString fuel r').map (fun p => (Char.ofNat 8 :: p.1, p.2))
    | 'f' :: r' => (readString fuel r').map (fun p => (Char.ofNat 12 :: p.1, p.2))
    | 'n' :: r' => (readString fuel r').map (fun p => ('\n' :: p.1, p.2))
    | 'r' :: r' => (readString fuel r').map (fun p => ('\r' :: p.1, p.2))
    | 't' :: r' => (readString fuel r').map (fun p => ('\t' :: p.1, p.2))
    | 'u' :: r' =>
      match readHex4 r' with
      | none => none
      | some (u, r₁) =>
        if 0xD800 ≤ u ∧ u ≤ 0xDBFF then
          match r₁ with
          | '\\' :: 'u' :: r₂ =>
            match readHex4 r₂ with
            | none => none
            | some (lo, r₃) =>
              if 0xDC00 ≤ lo ∧ lo ≤ 0xDFFF then
                (readString fuel r₃).map (fun p =>
                  (Char.ofNat (0x10000 + (u - 0xD800) * 0x400 + (lo - 0xDC00)) :: p.1, p.2))
              else (readString fuel r₁).map (fun p => (loneSurrogate :: p.1, p.2))
          | _ => (readString fuel r₁).map (fun p => (loneSurrogate :: p.1, p.2))
        else if 0xDC00 ≤ u ∧ u ≤ 0xDFFF then
          (readString fuel r₁).map (fun p => (loneSurrogate :: p.1, p.2))
        else (readString fuel r₁).map (fun p => (Char.ofNat u :: p.1, p.2))
    | _ => none
  | fuel + 1, c :: r =>
    if c.toNat < 0x20 then none
    else (readString fuel r).map (fun p => (c :: p.1, p.2))

/-- A number literal of the JSON grammar: its sign, digits and power of ten. -/
structure NumberLiteral where
  /-- The literal starts with `-`. -/
  negative : Bool
  /-- Digits and power of ten. -/
  digits : DecimalLiteral
  deriving DecidableEq

/-- The exponent part at the head of `cs`, if any, and the text after it; `none` when
an `e` or `E` is not followed by an optional sign and a digit. -/
def readExponent (cs : List Char) : Option (Int × List Char) :=
  match cs with
  | c :: t =>
    if c = 'e' ∨ c = 'E' then
      match t with
      | '+' :: u =>
        if (u.takeWhile Char.isDigit).isEmpty then none
        else some ((natOfDigits (u.takeWhile Char.isDigit) : Int), u.dropWhile Char.isDigit)
      | '-' :: u =>
        if (u.takeWhile Char.isDigit).isEmpty then none
        else some (-(natOfDigits (u.takeWhile Char.isDigit) : Int), u.dropWhile Char.isDigit)
      | u =>
        if (u.takeWhile Char.isDigit).isEmpty then none
        else some ((natOfDigits (u.takeWhile Char.isDigit) : Int), u.dropWhile Char.isDigit)
    else some (0, cs)
  | [] => some (0, [])

/-- The fraction at the head of `cs`, if any, and the text after it; `none` when a `.`
is not followed by a digit. -/
def readFraction (cs : List Char) : Option (List Char × List Char) :=
  match cs with
  | '.' :: t =>
    if (t.takeWhile Char.isDigit).isEmpty then none
    else some (t.takeWhile Char.isDigit, t.dropWhile Char.isDigit)
  | _ => some ([], cs)

/-- The digits of the integer part at the head of `cs` and the text after them: a
single `0`, or a run of digits that does not start with `0`. -/
def readInteger (cs : List Char) : Option (List Char × List Char) :=
  match cs with
  | '0' :: t => some (['0'], t)
  | c :: t =>
    if c.isDigit then some (c :: t.takeWhile Char.isDigit, t.dropWhile Char.isDigit)
    else none
  | [] => none

/-- The number literal after its optional sign. -/
def readUnsignedNumber (negative : Bool) (cs : List Char) :
    Option (NumberLiteral × List Char) :=
  match readInteger cs with
  | none => none
  | some (ip, r₁) =>
    match readFraction r₁ with
    | none => none
    | some (fp, r₂) =>
      match readExponent r₂ with
      | none => none
      | some (e, r₃) => some (⟨negative, ⟨natOfDigits (ip ++ fp), e - fp.length⟩⟩, r₃)

/-- The number literal at the head of `cs` and the text after it. -/
def readNumber (cs : List Char) : Option (NumberLiteral × List Char) :=
  match cs with
  | '-' :: t => readUnsignedNumber true t
  | _ => readUnsignedNumber false cs

/-- The rational a number literal denotes. -/
def NumberLiteral.value (l : NumberLiteral) : ℚ :=
  if l.negative then -((l.digits.mantissa : ℚ) * (10 : ℚ) ^ l.digits.exponent)
  else (l.digits.mantissa : ℚ) * (10 : ℚ) ^ l.digits.exponent

mutual
/-- The JSON value at the head of `cs`, after optional white space, and the text
after it. -/
def readValue : Nat → List Char → Option (JText × List Char)
  | 0, _ => none
  | fuel + 1, cs =>
    match skipSpace cs with
    | 'n' :: 'u' :: 'l' :: 'l' :: r => some (JText.null, r)
    | 't' :: 'r' :: 'u' :: 'e' :: r => some (JText.bool true, r)
    | 'f' :: 'a' :: 'l' :: 's' :: 'e' :: r => some (JText.bool false, r)
    | '"' :: r =>
      (readString (r.length + 1) r).map (fun p => (JText.string (String.mk p.1), p.2))
    | '[' :: r =>
      match skipSpace r with
      | ']' :: r' => some (JText.array [], r')
      | r' => (readElements fuel r').map (fun p => (JText.array p.1, p.2))
    | '{' :: r =>
      match skipSpace r with
      | '}' :: r' => some (JText.object [], r')
      | r' => (readMembers fuel r').map (fun p => (JText.object p.1, p.2))
    | r => (readNumber r).map (fun p => (JText.number p.1.value, p.2))
/-- The elements of a non-empty array, read from its first element on, and the text
after the closing bracket. -/
def readElements : Nat → List Char → Option (List JText × List Char)
  | 0, _ => none
  | fuel + 1, cs =>
    match readValue fuel cs with
    | none => none
    | some (v, r) =>
      match skipSpace r with
      | ',' :: r' => (readElements fuel r').map (fun p => (v :: p.1, p.2))
      | ']' :: r' => some ([v], r')
      | _ => none
/-- The members of a non-empty object, read from its first key on, and the text after
the closing brace. -/
def readMembers : Nat → List Char → Option (List (String × JText) × List Char)
  | 0, _ => none
  | fuel + 1, cs =>
    match skipSpace cs with
    | '"' :: r =>
      match readString (r.length + 1) r with
      | none => none
      | some (k, r₁) =>
        match skipSpace r₁ with
        | ':' :: r₂ =>
          match readValue fuel r₂ with
          | none => none
          | some (v, r₃) =>
            match skipSpace r₃ with
            | ',' :: r₄ => (readMembers fuel r₄).map (fun p => ((String.mk k, v) :: p.1, p.2))
            | '}' :: r₄ => some ([(String.mk k, v)], r₄)
            | _ => none
        | _ => none
    | _ => none
end

/-- The syntax tree of a JSON text; `none` when the text is not JSON.  Of any two
nested calls of the readers at least one consumes a character, so the fuel is twice
the length of the text (plus two). -/
def readText (text : String) : Option JText :=
  match readValue (2 * text.toList.length + 2) text.toList with
  | some (t, r) => if (skipSpace r).isEmpty then some t else none
  | none => none

/-- The value `JSON.parse(text)` returns; `none` when it throws a `SyntaxError`. -/
def parseText (text : String) : Option JSVal :=
  (readText text).map parse

end JSON

/-! ## The component state and the ingestion handlers -/

/-- The state of the `JsonEditor` component, one field per `useState`. -/
structure State where
  /-- The document store, `null` at first; `null` is the state of no document. -/
  json : JSVal
  /-- The selected category; the empty string is no selection. -/
  selectedCategory : String
  /-- The source label shown after `Loaded:`. -/
  fileName : String
  bulkMove : BulkMove
  showMoveAll : Bool
  showJsonDisplay : Bool
  is3DView : Bool
  showVisualization : Bool
  urlInput : String
  jsonInput : String
  /-- The error shown to the user; `none` is `null`. -/
  fetchError : Option String

/-- The state the component starts in. -/
def State.initial : State :=
  { json := JSVal.null, selectedCategory := "", fileName := "", bulkMove := BulkMove.zero,
    showMoveAll := false, showJsonDisplay := false, is3DView := true,
    showVisualization := false, urlInput := "", jsonInput := "", fetchError := none }

/-- A file picked in the file input: its name and the text `FileReader.readAsText`
delivers to `onload`; `none` when the read fails and `onload` is never called. -/
structure File where
  name : String
  text : Option String

/-- The `Response` that `fetch` resolves to: its `ok` flag, its status and its body. -/
structure Response where
  ok : Bool
  status : Nat
  body : String

/-- The message `handleUrlFetch` shows when it fails. -/
def urlErrorMessage : String :=
  "Could not fetch the JSON from the URL provided. Maybe CORS is not enabled for the source? (paste.cytooxien.de not suppported)"

/-- The message `handleJsonPaste` shows when it fails. -/
def pasteErrorMessage : String :=
  "Error parsing pasted JSON. Please check the format. Paste must not include line numbers. Please paste from paste.cytooxien.de/RAW/..."

/-- The state after `handleFileUpload(event)` and the `onload` it schedules, where
`file` is `event.target.files[0]`.  Without a file, reading `file.name` throws and
nothing is set.  The name is set before the file is read; a text that is not JSON is
only logged to the console. -/
def handleFileUpload (file : Option File) (s : State) : State :=
  match file with
  | none => s
  | some f =>
    match f.text with
    | none => { s with fileName := f.name }
    | some text =>
      match JSON.parseText text with
      | some parsedJson => { s with fileName := f.name, json := parsedJson }
      | none => { s with fileName := f.name }

/-- The state after `handleUrlFetch()` has run to its end, for the network given by
`fetch`: `none` when the promise rejects.  The error is cleared first; a rejection,
a response that is not `ok` and a body that is not JSON all end in the `catch`. -/
def handleUrlFetch (fetch : String → Option Response) (s : State) : State :=
  match fetch (fetchTarget s.urlInput) with
  | none => { s with fetchError := some urlErrorMessage }
  | some response =>
    if response.ok then
      match JSON.parseText response.body with
      | some data =>
        { s with
          fetchError := none
          json := data
          fileName := fetchedLabel (fetchTarget s.urlInput) }
      | none => { s with fetchError := some urlErrorMessage }
    else { s with fetchError := some urlErrorMessage }

/-- The state after `handleJsonPaste()`. -/
def handleJsonPaste (s : State) : State :=
  match JSON.parseText s.jsonInput with
  | some parsedJson =>
    { s with json := parsedJson, fileName := "Pasted JSON", fetchError := none }
  | none => { s with fetchError := some pasteErrorMessage }

/-- The text of the scenario document. -/
def scenarioText : String :=
  "\x7b\"name\":\"M\",\"deathHeight\":-64,\"locations\":\x7b\"spawn\":[\x7b\"x\":1,\"y\":2,\"z\":3,\"yaw\":0,\"pitch\":0,\"customOptions\":\x7b\x7d\x7d]\x7d\x7d"

/-! ## Documents used as concrete inputs -/

/-- The entry `{x: 1, y: 2, z: 3, yaw: 0, pitch: 0, customOptions: {}}`. -/
def spawnEntry : Entry :=
  [("x", JSVal.num (JSNum.fin 1)), ("y", JSVal.num (JSNum.fin 2)),
   ("z", JSVal.num (JSNum.fin 3)), ("yaw", JSVal.num (JSNum.fin 0)),
   ("pitch", JSVal.num (JSNum.fin 0)), ("customOptions", JSVal.obj [])]

/-- The document
`{"name":"M","deathHeight":-64,"locations":{"spawn":[{"x":1,"y":2,"z":3,"yaw":0,"pitch":0,"customOptions":{}}]}}`. -/
def scenarioDoc : Doc :=
  { top := [("name", JSVal.str "M"), ("deathHeight", JSVal.num (JSNum.fin (-64)))]
    locations := [("spawn", [spawnEntry])] }

/-- A document whose entry holds a text in `x`:
`{"name":"M","deathHeight":-64,"locations":{"spawn":[{"x":"abc","y":2,"z":3,"yaw":0,"pitch":0,"customOptions":{}}]}}`. -/
def textCoordinateDoc : Doc :=
  { top := [("name", JSVal.str "M"), ("deathHeight", JSVal.num (JSNum.fin (-64)))]
    locations := [("spawn", [[("x", JSVal.str "abc"), ("y", JSVal.num (JSNum.fin 2)),
      ("z", JSVal.num (JSNum.fin 3)), ("yaw", JSVal.num (JSNum.fin 0)),
      ("pitch", JSVal.num (JSNum.fin 0)), ("customOptions", JSVal.obj [])]])] }

/-! ## Properties -/

/-! ### Rounding to a double -/

theorem roundHalfEven_intCast (k : ℤ) : roundHalfEven (k : ℚ) = k := by
  simp [roundHalfEven]

theorem floor_le_roundHalfEven (r : ℚ) : ⌊r⌋ ≤ roundHalfEven r := by
  unfold roundHalfEven
  split_ifs <;> omega

theorem roundHalfEven_tie_even (k : ℤ) (hk : k % 2 = 0) :
    roundHalfEven ((k : ℚ) + 1 / 2) = k := by
  have hfloor : ⌊(k : ℚ) + 1 / 2⌋ = k := by
    rw [Int.floor_eq_iff]
    constructor <;> linarith
  have hfract : Int.fract ((k : ℚ) + 1 / 2) = 1 / 2 := by
    rw [Int.fract, hfloor]
    ring
  unfold roundHalfEven
  rw [hfract, hfloor]
  simp [hk]

theorem roundDouble_ne_nan (q : ℚ) : roundDouble q ≠ JSNum.nan := by
  unfold roundDouble
  split_ifs <;> simp

theorem log_two_eq (a : ℚ) (e : ℤ) (h1 : (2 : ℚ) ^ e ≤ a) (h2 : a < (2 : ℚ) ^ (e + 1)) :
    Int.log 2 a = e := by
  have hpos : 0 < a := lt_of_lt_of_le (by positivity) h1
  have hlt : Int.log 2 a < e + 1 :=
    (Int.lt_zpow_iff_log_lt (by norm_num : 1 < 2) hpos).mp (by exact_mod_cast h2)
  have hle : e ≤ Int.log 2 a :=
    (Int.zpow_le_iff_le_log (by norm_num : 1 < 2) hpos).mp (by exact_mod_cast h1)
  omega

theorem roundMagnitude_of_multiple (a : ℚ) (k : ℤ)
    (hk : a = (k : ℚ) * (2 : ℚ) ^ ulpExponent a) : roundMagnitude a = a := by
  have hne : (2 : ℚ) ^ ulpExponent a ≠ 0 := by positivity
  have hdiv : a / (2 : ℚ) ^ ulpExponent a = (k : ℚ) := by
    rw [div_eq_iff hne]
    exact hk
  unfold roundMagnitude
  rw [hdiv, roundHalfEven_intCast, ← hk]

theorem roundMagnitude_natCast (m : ℕ) (h : m < 2 ^ 53) : roundMagnitude (m : ℚ) = m := by
  by_cases hm : m = 0
  · subst hm
    simp [roundMagnitude, roundHalfEven]
  have hlog : Int.log 2 (m : ℚ) = (Nat.log 2 m : ℤ) := Int.log_natCast 2 m
  have hlt : Nat.log 2 m < 53 := Nat.log_lt_of_lt_pow hm h
  have hu : ulpExponent (m : ℚ) = -((52 - Nat.log 2 m : ℕ) : ℤ) := by
    rw [ulpExponent, hlog]
    omega
  apply roundMagnitude_of_multiple (m : ℚ) ((m * 2 ^ (52 - Nat.log 2 m) : ℕ) : ℤ)
  rw [hu, zpow_neg, zpow_natCast]
  have hne : ((2 : ℚ) ^ (52 - Nat.log 2 m)) ≠ 0 := by positivity
  push_cast
  field_simp

theorem two_pow_le_roundMagnitude (a : ℚ) (e : ℤ) (he : -1022 ≤ e) (h : (2 : ℚ) ^ e ≤ a) :
    (2 : ℚ) ^ e ≤ roundMagnitude a := by
  have hpos : 0 < a := lt_of_lt_of_le (by positivity) h
  have hle : e ≤ Int.log 2 a :=
    (Int.zpow_le_iff_le_log (by norm_num : 1 < 2) hpos).mp (by exact_mod_cast h)
  have hself : (2 : ℚ) ^ Int.log 2 a ≤ a := by
    have := Int.zpow_log_le_self (by norm_num : 1 < 2) hpos
    exact_mod_cast this
  have hu : ulpExponent a = Int.log 2 a - 52 := by
    rw [ulpExponent]
    omega
  have hupos : (0 : ℚ) < (2 : ℚ) ^ ulpExponent a := by positivity
  have hsplit : (2 : ℚ) ^ Int.log 2 a = (2 : ℚ) ^ (52 : ℤ) * (2 : ℚ) ^ ulpExponent a := by
    rw [hu, ← zpow_add₀ (by norm_num : (2 : ℚ) ≠ 0)]
    congr 1
    omega
  have hcast : (((2 : ℤ) ^ (52 : ℕ) : ℤ) : ℚ) = (2 : ℚ) ^ (52 : ℤ) := by norm_num
  have h52 : (((2 : ℤ) ^ (52 : ℕ) : ℤ) : ℚ) ≤ a / (2 : ℚ) ^ ulpExponent a := by
    rw [hcast, le_div_iff₀ hupos, ← hsplit]
    exact hself
  have hfl : (2 : ℤ) ^ (52 : ℕ) ≤ roundHalfEven (a / (2 : ℚ) ^ ulpExponent a) :=
    le_trans (Int.le_floor.mpr h52) (floor_le_roundHalfEven _)
  have hq : (2 : ℚ) ^ (52 : ℤ) ≤ (roundHalfEven (a / (2 : ℚ) ^ ulpExponent a) : ℚ) := by
    rw [← hcast]
    exact_mod_cast hfl
  calc (2 : ℚ) ^ e ≤ (2 : ℚ) ^ Int.log 2 a := zpow_le_zpow_right₀ (by norm_num) hle
    _ = (2 : ℚ) ^ (52 : ℤ) * (2 : ℚ) ^ ulpExponent a := hsplit
    _ ≤ roundMagnitude a := by
        unfold roundMagnitude
        exact mul_le_mul_of_nonneg_right hq (le_of_lt hupos)

theorem roundDouble_overflow (q : ℚ) (h : (2 : ℚ) ^ (1024 : ℤ) ≤ q) :
    roundDouble q = JSNum.posInf := by
  have hpos : 0 < q := lt_of_lt_of_le (by positivity) h
  have habs : |q| = q := abs_of_pos hpos
  have hbig : (2 : ℚ) ^ (1024 : ℤ) ≤ roundMagnitude q :=
    two_pow_le_roundMagnitude q 1024 (by omega) h
  unfold roundDouble
  rw [habs, if_pos hbig, if_neg (not_lt.mpr (le_of_lt hpos))]

theorem roundDouble_intCast (n : ℤ) (h : |n| < 2 ^ 53) : roundDouble (n : ℚ) = JSNum.fin n := by
  have habs : |(n : ℚ)| = ((n.natAbs : ℕ) : ℚ) := by
    rw [← Int.cast_abs, Int.abs_eq_natAbs, Int.cast_natCast]
  have hlt : n.natAbs < 2 ^ 53 := by
    have : (n.natAbs : ℤ) < 2 ^ 53 := by rw [← Int.abs_eq_natAbs]; exact h
    exact_mod_cast this
  have hmag : roundMagnitude |(n : ℚ)| = |(n : ℚ)| := by
    rw [habs]
    exact roundMagnitude_natCast _ hlt
  have hsmall : ¬ (2 : ℚ) ^ (1024 : ℤ) ≤ roundMagnitude |(n : ℚ)| := by
    rw [hmag, habs, not_le]
    have h1 : ((n.natAbs : ℕ) : ℚ) < (2 : ℚ) ^ (53 : ℤ) := by
      have h2 : ((n.natAbs : ℕ) : ℚ) < (2 : ℚ) ^ (53 : ℕ) := by exact_mod_cast hlt
      rwa [show (2 : ℚ) ^ (53 : ℤ) = (2 : ℚ) ^ (53 : ℕ) from zpow_natCast 2 53]
    exact lt_trans h1 (zpow_lt_zpow_right₀ (by norm_num) (by omega))
  unfold roundDouble
  rw [if_neg hsmall, hmag]
  by_cases hneg : (n : ℚ) < 0
  · rw [if_pos hneg, abs_of_neg hneg, neg_neg]
  · rw [if_neg hneg, abs_of_nonneg (not_lt.mp hneg)]

theorem roundDouble_two_pow_53_add_one :
    roundDouble ((2 : ℚ) ^ (53 : ℕ) + 1) = JSNum.fin ((2 : ℚ) ^ (53 : ℕ)) := by
  have hlog : Int.log 2 ((2 : ℚ) ^ (53 : ℕ) + 1) = 53 :=
    log_two_eq _ 53 (by norm_num) (by norm_num)
  have hu : ulpExponent ((2 : ℚ) ^ (53 : ℕ) + 1) = 1 := by
    rw [ulpExponent, hlog]
    norm_num
  have hdiv : ((2 : ℚ) ^ (53 : ℕ) + 1) / (2 : ℚ) ^ (1 : ℤ) =
      (((2 : ℤ) ^ (52 : ℕ) : ℤ) : ℚ) + 1 / 2 := by
    norm_num
  have hmag : roundMagnitude ((2 : ℚ) ^ (53 : ℕ) + 1) = (2 : ℚ) ^ (53 : ℕ) := by
    unfold roundMagnitude
    rw [hu, hdiv, roundHalfEven_tie_even _ (by norm_num)]
    norm_num
  have habs : |((2 : ℚ) ^ (53 : ℕ) + 1)| = (2 : ℚ) ^ (53 : ℕ) + 1 := abs_of_pos (by positivity)
  have hsmall : ¬ (2 : ℚ) ^ (1024 : ℤ) ≤ (2 : ℚ) ^ (53 : ℕ) := by
    rw [not_le, ← zpow_natCast]
    exact zpow_lt_zpow_right₀ (by norm_num) (by norm_num)
  unfold roundDouble
  rw [habs, hmag, if_neg hsmall, if_neg (by norm_num)]

theorem ten_pow_400_out_of_range : (2 : ℚ) ^ (1024 : ℤ) ≤ (10 : ℚ) ^ (400 : ℤ) := by
  have h10 : (10 : ℚ) ^ (400 : ℤ) = (10 : ℚ) ^ (400 : ℕ) := zpow_natCast 10 400
  have h2 : (2 : ℚ) ^ (1200 : ℤ) = (2 : ℚ) ^ (3 * 400 : ℕ) := zpow_natCast 2 (3 * 400)
  have h1 : (2 : ℚ) ^ (1024 : ℤ) ≤ (2 : ℚ) ^ (1200 : ℤ) :=
    zpow_le_zpow_right₀ (by norm_num) (by omega)
  have h3 : ((2 : ℚ) ^ 3) ^ 400 ≤ (10 : ℚ) ^ (400 : ℕ) :=
    pow_le_pow_left₀ (by norm_num) (by norm_num) 400
  rw [h10]
  rw [h2, pow_mul] at h1
  exact le_trans h1 h3

theorem parseFloat_of_literal (s : String) (l : SignedLiteral)
    (h : parseFloatLiteral s = some l) : parseFloat s = l.value := by
  unfold parseFloat
  rw [h]

theorem value_of_decimal (d : DecimalLiteral) :
    SignedLiteral.value ⟨false, UnsignedLiteral.decimal d⟩
      = roundDouble ((d.mantissa : ℚ) * (10 : ℚ) ^ d.exponent) := by
  rfl

theorem parseFloat_out_of_range : parseFloat "1e400" = JSNum.posInf := by
  have h : parseFloatLiteral "1e400" = some ⟨false, UnsignedLiteral.decimal ⟨1, 400⟩⟩ := by
    decide
  rw [parseFloat_of_literal _ _ h, value_of_decimal]
  show roundDouble (((1 : ℕ) : ℚ) * (10 : ℚ) ^ (400 : ℤ)) = JSNum.posInf
  rw [Nat.cast_one, one_mul]
  exact roundDouble_overflow _ ten_pow_400_out_of_range

section Lemmas

variable {α β : Type}

theorem getProp_setProp_same (o : List (String × α)) (k : String) (v : α) :
    getProp (setProp o k v) k = some v := by
  induction o with
  | nil => simp [setProp, getProp]
  | cons p t ih =>
    obtain ⟨k', v'⟩ := p
    by_cases h : k' = k
    · simp [setProp, getProp, h]
    · simp [setProp, getProp, h, ih]

theorem getProp_setProp_ne (o : List (String × α)) (k k' : String) (v : α) (h : k' ≠ k) :
    getProp (setProp o k v) k' = getProp o k' := by
  induction o with
  | nil => simp [setProp, getProp, Ne.symm h]
  | cons p t ih =>
    obtain ⟨k₁, v₁⟩ := p
    by_cases h₁ : k₁ = k
    · subst h₁
      simp [setProp, getProp, Ne.symm h]
    · by_cases h₂ : k₁ = k'
      · subst h₂
        simp [setProp, getProp, h]
      · simp [setProp, getProp, h₁, h₂, ih]

theorem arrayMapFrom_length (f : α → Nat → β) (s : Nat) (xs : List α) :
    (arrayMapFrom f s xs).length = xs.length := by
  induction xs generalizing s with
  | nil => rfl
  | cons x t ih => simp [arrayMapFrom, ih]

theorem arrayMapFrom_getElem? (f : α → Nat → β) (s : Nat) (xs : List α) (i : Nat) :
    (arrayMapFrom f s xs)[i]? = (xs[i]?).map (fun x => f x (s + i)) := by
  induction xs generalizing s i with
  | nil => simp [arrayMapFrom]
  | cons x t ih =>
    cases i with
    | zero => simp [arrayMapFrom]
    | succ j =>
      simp only [arrayMapFrom, List.getElem?_cons_succ, ih]
      congr 1
      funext y
      congr 1
      omega

theorem arrayMap_length (f : α → Nat → β) (xs : List α) :
    (arrayMap f xs).length = xs.length :=
  arrayMapFrom_length f 0 xs

theorem arrayMap_getElem? (f : α → Nat → β) (xs : List α) (i : Nat) :
    (arrayMap f xs)[i]? = (xs[i]?).map (fun x => f x i) := by
  simp [arrayMap, arrayMapFrom_getElem?]

theorem mapThrowing_isSome (f : α → Option β) (xs : List α)
    (h : ∀ x ∈ xs, ∃ y, f x = some y) : ∃ ys, mapThrowing f xs = some ys := by
  induction xs with
  | nil => exact ⟨[], rfl⟩
  | cons x t ih =>
    obtain ⟨y, hy⟩ := h x (List.mem_cons_self x t)
    obtain ⟨ys, hys⟩ := ih (fun z hz => h z (List.mem_cons_of_mem x hz))
    exact ⟨y :: ys, by simp [mapThrowing, hy, hys]⟩

theorem mapThrowing_getElem? (f : α → Option β) (xs : List α) (ys : List β)
    (h : mapThrowing f xs = some ys) (i : Nat) : ys[i]? = (xs[i]?).bind f := by
  induction xs generalizing ys i with
  | nil =>
    simp [mapThrowing] at h
    subst h
    simp
  | cons x t ih =>
    cases hx : f x with
    | none => simp [mapThrowing, hx] at h
    | some y =>
      cases ht : mapThrowing f t with
      | none => simp [mapThrowing, hx, ht] at h
      | some ys' =>
        simp [mapThrowing, hx, ht] at h
        subst h
        cases i with
        | zero => simp [hx]
        | succ j => simpa using ih ys' ht j

theorem mapThrowing_length (f : α → Option β) (xs : List α) (ys : List β)
    (h : mapThrowing f xs = some ys) : ys.length = xs.length := by
  induction xs generalizing ys with
  | nil =>
    simp [mapThrowing] at h
    subst h
    rfl
  | cons x t ih =>
    cases hx : f x with
    | none => simp [mapThrowing, hx] at h
    | some y =>
      cases ht : mapThrowing f t with
      | none => simp [mapThrowing, hx, ht] at h
      | some ys' =>
        simp [mapThrowing, hx, ht] at h
        subst h
        simp [ih ys' ht]

end Lemmas

theorem parseFloatVal_num (n : JSNum) : parseFloatVal (some (JSVal.num n)) = some n := by
  simp [parseFloatVal, toStringThrows, parseFloatOfString]

theorem add_fin_fin (a b : ℚ) : (JSNum.fin a).add (JSNum.fin b) = roundDouble (a + b) := by
  rfl

theorem add_intCast (a b : ℤ) (h : |a + b| < 2 ^ 53) :
    (JSNum.fin (a : ℚ)).add (JSNum.fin (b : ℚ)) = JSNum.fin ((a + b : ℤ) : ℚ) := by
  rw [add_fin_fin, ← Int.cast_add]
  exact roundDouble_intCast (a + b) h

theorem moveLocation_eq (bulkMove : BulkMove) (e : Entry) (x y z : JSNum)
    (hx : parseFloatVal (getProp e "x") = some x)
    (hy : parseFloatVal (getProp e "y") = some y)
    (hz : parseFloatVal (getProp e "z") = some z) :
    moveLocation bulkMove e =
      some (setProp (setProp (setProp e "x" (JSVal.num (x.add bulkMove.x)))
        "y" (JSVal.num (y.add bulkMove.y))) "z" (JSVal.num (z.add bulkMove.z))) := by
  simp [moveLocation, hx, hy, hz]

/-- C1: `applyBulkMove` with offset `bulkMove` on a selected category, none of whose
coordinates makes `parseFloat` throw, returns a document in which the category has the
same number of entries; the entry at each index is the old entry at that index with
`x`, `y`, `z` replaced by the JavaScript sum of the coerced old value and the offset
component (of the old value itself when it is a number) and every other property kept;
every other category and every top-level property is as before.  The sum is the double
nearest to the exact sum: it is the exact sum for integers whose sum is below `2 ^ 53`
in magnitude, and `2 ^ 53 + 1` is stored as `2 ^ 53`.  Moving the scenario entry
`(1, 2, 3)` by `(10, 20, 30)` stores `(11, 22, 33)`. -/
theorem applyBulkMove_translates (selectedCategory : String) (bulkMove : BulkMove)
    (prevJson : Doc) (items : List Entry)
    (hC : getProp prevJson.locations selectedCategory = some items)
    (hok : ∀ e ∈ items, ∀ k ∈ ["x", "y", "z"], ∃ n, parseFloatVal (getProp e k) = some n) :
    (∃ d' items', applyBulkMove selectedCategory bulkMove prevJson = some d' ∧
      getProp d'.locations selectedCategory = some items' ∧
      items'.length = items.length ∧
      (∀ (i : Nat) (e : Entry), items[i]? = some e → ∃ e', items'[i]? = some e' ∧
        (∀ n, parseFloatVal (getProp e "x") = some n →
          getProp e' "x" = some (JSVal.num (n.add bulkMove.x))) ∧
        (∀ n, parseFloatVal (getProp e "y") = some n →
          getProp e' "y" = some (JSVal.num (n.add bulkMove.y))) ∧
        (∀ n, parseFloatVal (getProp e "z") = some n →
          getProp e' "z" = some (JSVal.num (n.add bulkMove.z))) ∧
        (∀ x, getProp e "x" = some (JSVal.num x) →
          getProp e' "x" = some (JSVal.num (x.add bulkMove.x))) ∧
        (∀ y, getProp e "y" = some (JSVal.num y) →
          getProp e' "y" = some (JSVal.num (y.add bulkMove.y))) ∧
        (∀ z, getProp e "z" = some (JSVal.num z) →
          getProp e' "z" = some (JSVal.num (z.add bulkMove.z))) ∧
        (∀ k, k ≠ "x" → k ≠ "y" → k ≠ "z" → getProp e' k = getProp e k)) ∧
      (∀ c, c ≠ selectedCategory → getProp d'.locations c = getProp prevJson.locations c) ∧
      d'.top = prevJson.top) ∧
    (∀ a b : ℤ, |a + b| < 2 ^ 53 →
      (JSNum.fin (a : ℚ)).add (JSNum.fin (b : ℚ)) = JSNum.fin ((a + b : ℤ) : ℚ)) ∧
    (JSNum.fin ((2 : ℚ) ^ (53 : ℕ))).add (JSNum.fin 1) = JSNum.fin ((2 : ℚ) ^ (53 : ℕ)) ∧
    applyBulkMove "spawn" ⟨JSNum.fin 10, JSNum.fin 20, JSNum.fin 30⟩ scenarioDoc =
      some { scenarioDoc with
        locations := [("spawn", [[("x", JSVal.num (JSNum.fin 11)),
          ("y", JSVal.num (JSNum.fin 22)), ("z", JSVal.num (JSNum.fin 33)),
          ("yaw", JSVal.num (JSNum.fin 0)), ("pitch", JSVal.num (JSNum.fin 0)),
          ("customOptions", JSVal.obj [])]])] } := by
  refine ⟨?_, add_intCast, ?_, ?_⟩
  · have hsome : ∀ e ∈ items, ∃ e', moveLocation bulkMove e = some e' := by
      intro e he
      obtain ⟨x, hx⟩ := hok e he "x" (by simp)
      obtain ⟨y, hy⟩ := hok e he "y" (by simp)
      obtain ⟨z, hz⟩ := hok e he "z" (by simp)
      exact ⟨_, moveLocation_eq bulkMove e x y z hx hy hz⟩
    obtain ⟨moved, hmoved⟩ := mapThrowing_isSome _ _ hsome
    refine ⟨{ prevJson with locations := setProp prevJson.locations selectedCategory moved },
      moved, by simp [applyBulkMove, hC, hmoved], ?_, ?_, ?_, ?_, rfl⟩
    · exact getProp_setProp_same _ _ _
    · exact mapThrowing_length _ _ _ hmoved
    · intro i e hie
      have hmem : e ∈ items := List.getElem?_mem hie
      obtain ⟨x, hx⟩ := hok e hmem "x" (by simp)
      obtain ⟨y, hy⟩ := hok e hmem "y" (by simp)
      obtain ⟨z, hz⟩ := hok e hmem "z" (by simp)
      have hi := mapThrowing_getElem? _ _ _ hmoved i
      rw [hie, Option.some_bind, moveLocation_eq bulkMove e x y z hx hy hz] at hi
      have hgx : getProp (setProp (setProp (setProp e "x" (JSVal.num (x.add bulkMove.x)))
          "y" (JSVal.num (y.add bulkMove.y))) "z" (JSVal.num (z.add bulkMove.z))) "x"
          = some (JSVal.num (x.add bulkMove.x)) := by
        rw [getProp_setProp_ne _ _ _ _ (by decide), getProp_setProp_ne _ _ _ _ (by decide),
          getProp_setProp_same]
      have hgy : getProp (setProp (setProp (setProp e "x" (JSVal.num (x.add bulkMove.x)))
          "y" (JSVal.num (y.add bulkMove.y))) "z" (JSVal.num (z.add bulkMove.z))) "y"
          = some (JSVal.num (y.add bulkMove.y)) := by
        rw [getProp_setProp_ne _ _ _ _ (by decide), getProp_setProp_same]
      have hgz : getProp (setProp (setProp (setProp e "x" (JSVal.num (x.add bulkMove.x)))
          "y" (JSVal.num (y.add bulkMove.y))) "z" (JSVal.num (z.add bulkMove.z))) "z"
          = some (JSVal.num (z.add bulkMove.z)) := getProp_setProp_same _ _ _
      refine ⟨_, hi, ?_, ?_, ?_, ?_, ?_, ?_, ?_⟩
      · intro n hn
        rw [hx] at hn
        cases hn
        exact hgx
      · intro n hn
        rw [hy] at hn
        cases hn
        exact hgy
      · intro n hn
        rw [hz] at hn
        cases hn
        exact hgz
      · intro x' hx'
        rw [hx', parseFloatVal_num] at hx
        cases hx
        exact hgx
      · intro y' hy'
        rw [hy', parseFloatVal_num] at hy
        cases hy
        exact hgy
      · intro z' hz'
        rw [hz', parseFloatVal_num] at hz
        cases hz
        exact hgz
      · intro k hkx hky hkz
        rw [getProp_setProp_ne _ _ _ _ hkz, getProp_setProp_ne _ _ _ _ hky,
          getProp_setProp_ne _ _ _ _ hkx]
    · intro c hc
      exact getProp_setProp_ne _ _ _ _ hc
  · rw [add_fin_fin]
    exact roundDouble_two_pow_53_add_one
  · have h11 : (JSNum.fin 1).add (JSNum.fin 10) = JSNum.fin 11 := by
      simpa using add_intCast 1 10 (by norm_num)
    have h22 : (JSNum.fin 2).add (JSNum.fin 20) = JSNum.fin 22 := by
      simpa using add_intCast 2 20 (by norm_num)
    have h33 : (JSNum.fin 3).add (JSNum.fin 30) = JSNum.fin 33 := by
      simpa using add_intCast 3 30 (by norm_num)
    have hm : moveLocation ⟨JSNum.fin 10, JSNum.fin 20, JSNum.fin 30⟩ spawnEntry =
        some [("x", JSVal.num (JSNum.fin 11)),
          ("y", JSVal.num (JSNum.fin 22)), ("z", JSVal.num (JSNum.fin 33)),
          ("yaw", JSVal.num (JSNum.fin 0)), ("pitch", JSVal.num (JSNum.fin 0)),
          ("customOptions", JSVal.obj [])] := by
      rw [moveLocation_eq _ spawnEntry (JSNum.fin 1) (JSNum.fin 2) (JSNum.fin 3) rfl rfl rfl,
        h11, h22, h33]
      rfl
    have hC' : getProp scenarioDoc.locations "spawn" = some [spawnEntry] := rfl
    simp only [applyBulkMove, hC', mapThrowing, hm, Option.map_some']
    rfl

/-- C1, instance: the scenario document, whose coordinates are numbers, moved by
`(10, 20, 30)`. -/
theorem applyBulkMove_translates_witness :
    (∃ d' items', applyBulkMove "spawn" ⟨JSNum.fin 10, JSNum.fin 20, JSNum.fin 30⟩ scenarioDoc
        = some d' ∧
      getProp d'.locations "spawn" = some items' ∧
      items'.length = [spawnEntry].length ∧
      (∀ (i : Nat) (e : Entry), [spawnEntry][i]? = some e → ∃ e', items'[i]? = some e' ∧
        (∀ n, parseFloatVal (getProp e "x") = some n →
          getProp e' "x" = some (JSVal.num (n.add (JSNum.fin 10)))) ∧
        (∀ n, parseFloatVal (getProp e "y") = some n →
          getProp e' "y" = some (JSVal.num (n.add (JSNum.fin 20)))) ∧
        (∀ n, parseFloatVal (getProp e "z") = some n →
          getProp e' "z" = some (JSVal.num (n.add (JSNum.fin 30)))) ∧
        (∀ x, getProp e "x" = some (JSVal.num x) →
          getProp e' "x" = some (JSVal.num (x.add (JSNum.fin 10)))) ∧
        (∀ y, getProp e "y" = some (JSVal.num y) →
          getProp e' "y" = some (JSVal.num (y.add (JSNum.fin 20)))) ∧
        (∀ z, getProp e "z" = some (JSVal.num z) →
          getProp e' "z" = some (JSVal.num (z.add (JSNum.fin 30)))) ∧
        (∀ k, k ≠ "x" → k ≠ "y" → k ≠ "z" → getProp e' k = getProp e k)) ∧
      (∀ c, c ≠ "spawn" → getProp d'.locations c = getProp scenarioDoc.locations c) ∧
      d'.top = scenarioDoc.top) ∧
    (∀ a b : ℤ, |a + b| < 2 ^ 53 →
      (JSNum.fin (a : ℚ)).add (JSNum.fin (b : ℚ)) = JSNum.fin ((a + b : ℤ) : ℚ)) ∧
    (JSNum.fin ((2 : ℚ) ^ (53 : ℕ))).add (JSNum.fin 1) = JSNum.fin ((2 : ℚ) ^ (53 : ℕ)) ∧
    applyBulkMove "spawn" ⟨JSNum.fin 10, JSNum.fin 20, JSNum.fin 30⟩ scenarioDoc =
      some { scenarioDoc with
        locations := [("spawn", [[("x", JSVal.num (JSNum.fin 11)),
          ("y", JSVal.num (JSNum.fin 22)), ("z", JSVal.num (JSNum.fin 33)),
          ("yaw", JSVal.num (JSNum.fin 0)), ("pitch", JSVal.num (JSNum.fin 0)),
          ("customOptions", JSVal.obj [])]])] } :=
  applyBulkMove_translates "spawn" ⟨JSNum.fin 10, JSNum.fin 20, JSNum.fin 30⟩ scenarioDoc
    [spawnEntry] rfl
    (by
      intro e he k hk
      simp only [List.mem_singleton] at he
      subst he
      simp only [List.mem_cons, List.mem_singleton, List.not_mem_nil, or_false] at hk
      rcases hk with rfl | rfl | rfl <;> exact ⟨_, rfl⟩)

theorem orZero_of_ne_nan (n : JSNum) (h : n ≠ JSNum.nan) : n.orZero = n := by
  cases n with
  | nan => exact absurd rfl h
  | posInf => rfl
  | negInf => rfl
  | fin q =>
    by_cases hq : q = 0
    · simp [JSNum.orZero, hq]
    · simp [JSNum.orZero, hq]

theorem orZero_ne_nan (n : JSNum) : n.orZero ≠ JSNum.nan := by
  cases n with
  | nan => simp [JSNum.orZero]
  | posInf => simp [JSNum.orZero]
  | negInf => simp [JSNum.orZero]
  | fin q =>
    by_cases hq : q = 0
    · simp [JSNum.orZero, hq]
    · simp [JSNum.orZero, hq]

theorem storedValue_numeric (param value : String) (h : param ∈ numericParams) :
    storedValue param value = JSVal.num (parseFloat value).orZero := by
  simp [storedValue, h]

theorem storedValue_other (param value : String) (h : param ∉ numericParams) :
    storedValue param value = JSVal.str value := by
  simp [storedValue, h]

theorem parseFloat_five : parseFloat "5" = JSNum.fin 5 := by
  have h : parseFloatLiteral "5" = some ⟨false, UnsignedLiteral.decimal ⟨5, 0⟩⟩ := by decide
  have h5 : roundDouble 5 = JSNum.fin 5 := by
    simpa using roundDouble_intCast 5 (by norm_num)
  simp [parseFloat, h, SignedLiteral.value, UnsignedLiteral.value, h5]

theorem handleLocationChange_eq (category : String) (index : Int) (param value : String)
    (prevJson : Doc) (items : List Entry)
    (hC : getProp prevJson.locations category = some items) :
    handleLocationChange category index param value prevJson =
      some { prevJson with
        locations := setProp prevJson.locations category
          (arrayMap (fun item i =>
            if (i : Int) = index then setProp item param (storedValue param value) else item)
            items) } := by
  simp [handleLocationChange, hC]

/-- C2: `handleLocationChange(category, index, param, value)` on an existing entry
stores, in `param` of that entry, the number `0` when `param` is one of `x`, `y`, `z`,
`yaw`, `pitch` and `value` does not parse, the parsed number when it parses, and the
string `value` itself when `param` is any other field; the other fields of the entry
are kept.  Editing `x` of `{x:1,y:2,z:3,yaw:0,pitch:0,customOptions:{}}` to `"5"`
gives `{x:5,y:2,z:3,yaw:0,pitch:0,customOptions:{}}`. -/
theorem handleLocationChange_stores (category : String) (i : Nat) (param value : String)
    (prevJson : Doc) (items : List Entry) (e : Entry)
    (hC : getProp prevJson.locations category = some items) (hi : items[i]? = some e) :
    (∃ d' items' e', handleLocationChange category (i : Int) param value prevJson = some d' ∧
      getProp d'.locations category = some items' ∧ items'[i]? = some e' ∧
      (param ∈ numericParams → parseFloat value = JSNum.nan →
        getProp e' param = some (JSVal.num (JSNum.fin 0))) ∧
      (param ∈ numericParams → parseFloat value ≠ JSNum.nan →
        getProp e' param = some (JSVal.num (parseFloat value))) ∧
      (param ∉ numericParams → getProp e' param = some (JSVal.str value)) ∧
      (∀ k, k ≠ param → getProp e' k = getProp e k)) ∧
    handleLocationChange "spawn" 0 "x" "5" scenarioDoc =
      some { scenarioDoc with
        locations := [("spawn", [[("x", JSVal.num (JSNum.fin 5)),
          ("y", JSVal.num (JSNum.fin 2)), ("z", JSVal.num (JSNum.fin 3)),
          ("yaw", JSVal.num (JSNum.fin 0)), ("pitch", JSVal.num (JSNum.fin 0)),
          ("customOptions", JSVal.obj [])]])] } := by
  constructor
  · refine ⟨_, _, setProp e param (storedValue param value),
      handleLocationChange_eq category i param value prevJson items hC,
      getProp_setProp_same _ _ _, ?_, ?_, ?_, ?_, ?_⟩
    · simp [arrayMap_getElem?, hi]
    · intro hp hnan
      rw [getProp_setProp_same, storedValue_numeric _ _ hp, hnan]
      rfl
    · intro hp hn
      rw [getProp_setProp_same, storedValue_numeric _ _ hp, orZero_of_ne_nan _ hn]
    · intro hp
      rw [getProp_setProp_same, storedValue_other _ _ hp]
    · intro k hk
      exact getProp_setProp_ne _ _ _ _ hk
  · simp [handleLocationChange, scenarioDoc, spawnEntry, getProp, setProp, arrayMap,
      arrayMapFrom, storedValue, numericParams, parseFloat_five, JSNum.orZero]

/-- C2, instance: `x` of the scenario entry edited to the text `"abc"`. -/
theorem handleLocationChange_stores_witness :
    (∃ d' items' e', handleLocationChange "spawn" ((0 : Nat) : Int) "x" "abc" scenarioDoc
        = some d' ∧
      getProp d'.locations "spawn" = some items' ∧ items'[0]? = some e' ∧
      ("x" ∈ numericParams → parseFloat "abc" = JSNum.nan →
        getProp e' "x" = some (JSVal.num (JSNum.fin 0))) ∧
      ("x" ∈ numericParams → parseFloat "abc" ≠ JSNum.nan →
        getProp e' "x" = some (JSVal.num (parseFloat "abc"))) ∧
      ("x" ∉ numericParams → getProp e' "x" = some (JSVal.str "abc")) ∧
      (∀ k, k ≠ "x" → getProp e' k = getProp spawnEntry k)) ∧
    handleLocationChange "spawn" 0 "x" "5" scenarioDoc =
      some { scenarioDoc with
        locations := [("spawn", [[("x", JSVal.num (JSNum.fin 5)),
          ("y", JSVal.num (JSNum.fin 2)), ("z", JSVal.num (JSNum.fin 3)),
          ("yaw", JSVal.num (JSNum.fin 0)), ("pitch", JSVal.num (JSNum.fin 0)),
          ("customOptions", JSVal.obj [])]])] } :=
  handleLocationChange_stores "spawn" 0 "x" "abc" scenarioDoc [spawnEntry] spawnEntry rfl rfl

/-! ### Array lemmas -/

theorem arrayFilterFrom_ne_id {α : Type} (xs : List α) (s : Nat) (index : Int)
    (h : ∀ j : Nat, s ≤ j → j < s + xs.length → (j : Int) ≠ index) :
    arrayFilterFrom (fun _ j => decide ((j : Int) ≠ index)) s xs = xs := by
  induction xs generalizing s with
  | nil => rfl
  | cons x t ih =>
    have hs : decide (((s : Nat) : Int) ≠ index) = true := by
      simp only [decide_eq_true_eq]
      exact h s (Nat.le_refl s) (by simp)
    simp only [arrayFilterFrom, hs, if_true]
    rw [ih (s + 1) (fun j hj hlt => h j (by omega) (by simp only [List.length_cons]; omega))]

theorem arrayFilterFrom_ne_eraseIdx {α : Type} (xs : List α) (s i : Nat) :
    arrayFilterFrom (fun _ j => decide ((j : Int) ≠ ((s + i : Nat) : Int))) s xs
      = xs.eraseIdx i := by
  induction xs generalizing s i with
  | nil => rfl
  | cons x t ih =>
    cases i with
    | zero =>
      have hs : decide (((s : Nat) : Int) ≠ ((s + 0 : Nat) : Int)) = false := by simp
      simp only [arrayFilterFrom, hs, Bool.false_eq_true, if_false, List.eraseIdx_cons_zero]
      exact arrayFilterFrom_ne_id t (s + 1) _ (fun j hj _ => by omega)
    | succ k =>
      have hs : decide (((s : Nat) : Int) ≠ ((s + (k + 1) : Nat) : Int)) = true := by
        simp only [decide_eq_true_eq]
        omega
      simp only [arrayFilterFrom, hs, if_true, List.eraseIdx_cons_succ]
      have hidx : s + (k + 1) = (s + 1) + k := by omega
      rw [hidx, ih (s + 1) k]

theorem arrayFilter_ne_eraseIdx {α : Type} (xs : List α) (i : Nat) :
    arrayFilter (fun _ j => decide ((j : Int) ≠ (i : Int))) xs = xs.eraseIdx i := by
  have h := arrayFilterFrom_ne_eraseIdx xs 0 i
  simpa [arrayFilter] using h

theorem arrayFilter_ne_outside {α : Type} (xs : List α) (index : Int)
    (h : index < 0 ∨ (xs.length : Int) ≤ index) :
    arrayFilter (fun _ j => decide ((j : Int) ≠ index)) xs = xs := by
  apply arrayFilterFrom_ne_id
  intro j _ hj
  omega

theorem spliceStart_nat (len i : Nat) : spliceStart len (i : Int) = min i len := by
  have h : ¬ ((i : Int) < 0) := by omega
  simp [spliceStart, h]

theorem splice_insert {α : Type} (xs : List α) (i : Nat) (a : α) :
    (splice xs (i : Int) 0 [a]).1 = xs.take i ++ a :: xs.drop i := by
  simp only [splice, spliceStart_nat, Nat.zero_min, Nat.add_zero, List.append_assoc,
    List.singleton_append]
  by_cases h : i ≤ xs.length
  · rw [Nat.min_eq_left h]
  · have h' : xs.length ≤ i := by omega
    rw [Nat.min_eq_right h', List.take_of_length_le h', List.take_of_length_le (Nat.le_refl _),
      List.drop_eq_nil_of_le h', List.drop_eq_nil_of_le (Nat.le_refl _)]

theorem splice_insert_length {α : Type} (xs : List α) (index : Int) (a : α) :
    (splice xs index 0 [a]).1.length = xs.length + 1 := by
  have hs : spliceStart xs.length index ≤ xs.length := by
    unfold spliceStart
    split <;> omega
  simp only [splice, Nat.zero_min, Nat.add_zero, List.length_append, List.length_take,
    List.length_singleton, List.length_drop]
  omega

theorem splice_remove {α : Type} (xs : List α) (i : Nat) (h : i < xs.length) :
    splice xs (i : Int) 1 [] = (xs.eraseIdx i, [xs[i]]) := by
  have hmin : min i xs.length = i := Nat.min_eq_left (Nat.le_of_lt h)
  have hdc : min 1 (xs.length - i) = 1 := Nat.min_eq_left (by omega)
  simp only [splice, spliceStart_nat, hmin, hdc, List.append_nil]
  rw [List.eraseIdx_eq_take_drop_succ]
  congr 1
  rw [List.take_one_drop_eq_of_lt_length h]
  rfl

theorem eraseIdx_take_cons_drop {α : Type} (xs : List α) (i : Nat) (a : α)
    (h : i ≤ xs.length) : (xs.take i ++ a :: xs.drop i).eraseIdx i = xs := by
  induction xs generalizing i with
  | nil =>
    have hi : i = 0 := by simpa using h
    subst hi
    rfl
  | cons x t ih =>
    cases i with
    | zero => rfl
    | succ j =>
      have hj : j ≤ t.length := by simpa using h
      simp [ih j hj]

/-! ### Editing one entry, inserting and removing -/

/-- C6: `handleLocationChange(category, index, param, value)` leaves the length of the
category, every entry of it at another index, every other category and every
top-level property (`name` and `deathHeight` among them) as they were. -/
theorem handleLocationChange_frame (category : String) (index : Int) (param value : String)
    (prevJson : Doc) (items : List Entry)
    (hC : getProp prevJson.locations category = some items) :
    ∃ d' items', handleLocationChange category index param value prevJson = some d' ∧
      getProp d'.locations category = some items' ∧
      items'.length = items.length ∧
      (∀ j : Nat, (j : Int) ≠ index → items'[j]? = items[j]?) ∧
      (∀ c, c ≠ category → getProp d'.locations c = getProp prevJson.locations c) ∧
      d'.top = prevJson.top ∧
      getProp d'.top "name" = getProp prevJson.top "name" ∧
      getProp d'.top "deathHeight" = getProp prevJson.top "deathHeight" := by
  refine ⟨_, _, handleLocationChange_eq category index param value prevJson items hC,
    getProp_setProp_same _ _ _, arrayMap_length _ _, ?_, ?_, rfl, rfl, rfl⟩
  · intro j hj
    rw [arrayMap_getElem?]
    cases items[j]? with
    | none => rfl
    | some e => simp [hj]
  · intro c hc
    exact getProp_setProp_ne _ _ _ _ hc

/-- C6, instance: `x` of the scenario entry edited to `"5"`. -/
theorem handleLocationChange_frame_witness :
    ∃ d' items', handleLocationChange "spawn" 0 "x" "5" scenarioDoc = some d' ∧
      getProp d'.locations "spawn" = some items' ∧
      items'.length = [spawnEntry].length ∧
      (∀ j : Nat, (j : Int) ≠ 0 → items'[j]? = [spawnEntry][j]?) ∧
      (∀ c, c ≠ "spawn" → getProp d'.locations c = getProp scenarioDoc.locations c) ∧
      d'.top = scenarioDoc.top ∧
      getProp d'.top "name" = getProp scenarioDoc.top "name" ∧
      getProp d'.top "deathHeight" = getProp scenarioDoc.top "deathHeight" :=
  handleLocationChange_frame "spawn" 0 "x" "5" scenarioDoc [spawnEntry] rfl

theorem addLocation_eq (category : String) (index : Int) (prevJson : Doc)
    (items : List Entry) (hC : getProp prevJson.locations category = some items) :
    addLocation category (some index) prevJson =
      some { prevJson with
        locations := setProp prevJson.locations category
          (splice items index 0 [newLocation]).1 } := by
  simp [addLocation, hC]

theorem removeLocation_eq (category : String) (index : Int) (prevJson : Doc)
    (items : List Entry) (hC : getProp prevJson.locations category = some items) :
    removeLocation category index prevJson =
      some { prevJson with
        locations := setProp prevJson.locations category
          (arrayFilter (fun _ i => decide ((i : Int) ≠ index)) items) } := by
  simp [removeLocation, hC]

theorem take_cons_drop_getElem?_lt {α : Type} (xs : List α) (i j : Nat) (a : α)
    (hi : i ≤ xs.length) (hj : j < i) : (xs.take i ++ a :: xs.drop i)[j]? = xs[j]? := by
  rw [List.getElem?_append_left (by simp; omega), List.getElem?_take_of_lt hj]

theorem take_cons_drop_getElem?_self {α : Type} (xs : List α) (i : Nat) (a : α)
    (hi : i ≤ xs.length) : (xs.take i ++ a :: xs.drop i)[i]? = some a := by
  rw [List.getElem?_append_right (by simp)]
  simp [Nat.min_eq_left hi]

theorem take_cons_drop_getElem?_succ {α : Type} (xs : List α) (i j : Nat) (a : α)
    (hi : i ≤ xs.length) (hj : i ≤ j) : (xs.take i ++ a :: xs.drop i)[j + 1]? = xs[j]? := by
  rw [List.getElem?_append_right (by simp; omega)]
  have hlen : (List.take i xs).length = i := by simp [Nat.min_eq_left hi]
  rw [hlen]
  have hidx : j + 1 - i = (j - i) + 1 := by omega
  rw [hidx, List.getElem?_cons_succ, List.getElem?_drop]
  congr 1
  omega

/-- C7: the entry `addLocation` creates is
`{x:0,y:0,z:0,yaw:0,pitch:0,customOptions:{}}`.  With an index `i` that is a position of
the sequence (`0 ≤ i ≤ length`; the component passes `0`) the new entry is inserted before
that position: it sits at index `i`, the entries before it are unchanged and the entries
from `i` on move up by one; without an index the new entry is appended at the end; with
any index or none the length grows by exactly one.
`addLocation("spawn", 0)` on the one-entry scenario document gives the new entry at
index 0 and the original at index 1. -/
theorem addLocation_inserts (category : String) (prevJson : Doc) (items : List Entry)
    (hC : getProp prevJson.locations category = some items) :
    newLocation = [("x", JSVal.num (JSNum.fin 0)), ("y", JSVal.num (JSNum.fin 0)),
      ("z", JSVal.num (JSNum.fin 0)), ("yaw", JSVal.num (JSNum.fin 0)),
      ("pitch", JSVal.num (JSNum.fin 0)), ("customOptions", JSVal.obj [])] ∧
    (∀ i : Nat, i ≤ items.length →
      ∃ d' items', addLocation category (some (i : Int)) prevJson = some d' ∧
        getProp d'.locations category = some items' ∧
        items'[i]? = some newLocation ∧
        (∀ j : Nat, j < i → items'[j]? = items[j]?) ∧
        (∀ j : Nat, i ≤ j → items'[j + 1]? = items[j]?)) ∧
    (∀ index : Int,
      ∃ d' items', addLocation category (some index) prevJson = some d' ∧
        getProp d'.locations category = some items' ∧
        items'.length = items.length + 1) ∧
    (∃ d', addLocation category none prevJson = some d' ∧
      getProp d'.locations category = some (items ++ [newLocation]) ∧
      (items ++ [newLocation]).length = items.length + 1) ∧
    (∃ d', addLocation "spawn" (some 0) scenarioDoc = some d' ∧
      getProp d'.locations "spawn" = some [newLocation, spawnEntry]) := by
  refine ⟨rfl, ?_, ?_, ?_, ?_⟩
  · intro i hi
    refine ⟨_, _, addLocation_eq category i prevJson items hC, getProp_setProp_same _ _ _,
      ?_, ?_, ?_⟩
    · rw [splice_insert]
      exact take_cons_drop_getElem?_self items i newLocation hi
    · intro j hj
      rw [splice_insert]
      exact take_cons_drop_getElem?_lt items i j newLocation hi hj
    · intro j hj
      rw [splice_insert]
      exact take_cons_drop_getElem?_succ items i j newLocation hi hj
  · intro index
    exact ⟨_, _, addLocation_eq category index prevJson items hC, getProp_setProp_same _ _ _,
      splice_insert_length items index newLocation⟩
  · refine ⟨_, by simp [addLocation, hC]; rfl, getProp_setProp_same _ _ _, by simp⟩
  · exact ⟨_, rfl, rfl⟩

/-- C7, instance: insertions into the one-entry scenario document. -/
theorem addLocation_inserts_witness :
    newLocation = [("x", JSVal.num (JSNum.fin 0)), ("y", JSVal.num (JSNum.fin 0)),
      ("z", JSVal.num (JSNum.fin 0)), ("yaw", JSVal.num (JSNum.fin 0)),
      ("pitch", JSVal.num (JSNum.fin 0)), ("customOptions", JSVal.obj [])] ∧
    (∀ i : Nat, i ≤ [spawnEntry].length →
      ∃ d' items', addLocation "spawn" (some (i : Int)) scenarioDoc = some d' ∧
        getProp d'.locations "spawn" = some items' ∧
        items'[i]? = some newLocation ∧
        (∀ j : Nat, j < i → items'[j]? = [spawnEntry][j]?) ∧
        (∀ j : Nat, i ≤ j → items'[j + 1]? = [spawnEntry][j]?)) ∧
    (∀ index : Int,
      ∃ d' items', addLocation "spawn" (some index) scenarioDoc = some d' ∧
        getProp d'.locations "spawn" = some items' ∧
        items'.length = [spawnEntry].length + 1) ∧
    (∃ d', addLocation "spawn" none scenarioDoc = some d' ∧
      getProp d'.locations "spawn" = some ([spawnEntry] ++ [newLocation]) ∧
      ([spawnEntry] ++ [newLocation]).length = [spawnEntry].length + 1) ∧
    (∃ d', addLocation "spawn" (some 0) scenarioDoc = some d' ∧
      getProp d'.locations "spawn" = some [newLocation, spawnEntry]) :=
  addLocation_inserts "spawn" scenarioDoc [spawnEntry] rfl

/-- C8: `removeLocation(category, index)` with a valid index removes that entry: the
length drops by one, the entries at lower indices keep their position and the entries
at higher indices move down by one.  With an index outside the bounds of the sequence
the sequence is unchanged. -/
theorem removeLocation_removes (category : String) (prevJson : Doc) (items : List Entry)
    (hC : getProp prevJson.locations category = some items) :
    (∀ i : Nat, i < items.length →
      ∃ d' items', removeLocation category (i : Int) prevJson = some d' ∧
        getProp d'.locations category = some items' ∧
        items'.length + 1 = items.length ∧
        (∀ j : Nat, j < i → items'[j]? = items[j]?) ∧
        (∀ j : Nat, i ≤ j → items'[j]? = items[j + 1]?)) ∧
    (∀ index : Int, index < 0 ∨ (items.length : Int) ≤ index →
      ∃ d', removeLocation category index prevJson = some d' ∧
        getProp d'.locations category = some items) := by
  constructor
  · intro i hi
    refine ⟨_, _, removeLocation_eq category i prevJson items hC, getProp_setProp_same _ _ _,
      ?_, ?_, ?_⟩
    · rw [arrayFilter_ne_eraseIdx, List.length_eraseIdx_of_lt hi]
      omega
    · intro j hj
      rw [arrayFilter_ne_eraseIdx, List.getElem?_eraseIdx_of_lt _ _ _ hj]
    · intro j hj
      rw [arrayFilter_ne_eraseIdx, List.getElem?_eraseIdx_of_ge _ _ _ hj]
  · intro index hidx
    refine ⟨_, removeLocation_eq category index prevJson items hC, ?_⟩
    rw [getProp_setProp_same, arrayFilter_ne_outside items index hidx]

/-- C8, instance: removals from a two-entry category. -/
theorem removeLocation_removes_witness :
    (∀ i : Nat, i < [spawnEntry, newLocation].length →
      ∃ d' items', removeLocation "spawn" (i : Int)
          { scenarioDoc with locations := [("spawn", [spawnEntry, newLocation])] } = some d' ∧
        getProp d'.locations "spawn" = some items' ∧
        items'.length + 1 = [spawnEntry, newLocation].length ∧
        (∀ j : Nat, j < i → items'[j]? = [spawnEntry, newLocation][j]?) ∧
        (∀ j : Nat, i ≤ j → items'[j]? = [spawnEntry, newLocation][j + 1]?)) ∧
    (∀ index : Int, index < 0 ∨ (([spawnEntry, newLocation].length : Nat) : Int) ≤ index →
      ∃ d', removeLocation "spawn" index
          { scenarioDoc with locations := [("spawn", [spawnEntry, newLocation])] } = some d' ∧
        getProp d'.locations "spawn" = some [spawnEntry, newLocation]) :=
  removeLocation_removes "spawn"
    { scenarioDoc with locations := [("spawn", [spawnEntry, newLocation])] }
    [spawnEntry, newLocation] rfl

/-- C4: for every document, every category `C` of it and every index `i` that is a
position of the sequence of `C` (`0 ≤ i ≤ length`), `addLocation(C, i)` followed by
`removeLocation(C, i)` yields the original sequence for `C`, and leaves every other
category and the top-level properties as they were. -/
theorem addLocation_removeLocation_restores (category : String) (i : Nat) (prevJson : Doc)
    (items : List Entry) (hC : getProp prevJson.locations category = some items)
    (hi : i ≤ items.length) :
    ∃ d₁ d₂, addLocation category (some (i : Int)) prevJson = some d₁ ∧
      removeLocation category (i : Int) d₁ = some d₂ ∧
      getProp d₂.locations category = some items ∧
      (∀ c, getProp d₂.locations c = getProp prevJson.locations c) ∧
      d₂.top = prevJson.top := by
  have hadd := addLocation_eq category i prevJson items hC
  have hrem := removeLocation_eq category i
    { prevJson with
      locations := setProp prevJson.locations category (splice items i 0 [newLocation]).1 }
    (splice items i 0 [newLocation]).1 (getProp_setProp_same _ _ _)
  have hseq : arrayFilter (fun _ j => decide ((j : Int) ≠ (i : Int)))
      (splice items (i : Int) 0 [newLocation]).1 = items := by
    rw [arrayFilter_ne_eraseIdx, splice_insert, eraseIdx_take_cons_drop items i newLocation hi]
  refine ⟨_, _, hadd, hrem, ?_, ?_, rfl⟩
  · rw [getProp_setProp_same, hseq]
  · intro c
    by_cases hc : c = category
    · subst hc
      rw [getProp_setProp_same, hseq, hC]
    · rw [getProp_setProp_ne _ _ _ _ hc, getProp_setProp_ne _ _ _ _ hc]

/-- C4, instance: insertion at the end of the scenario category, then removal there. -/
theorem addLocation_removeLocation_restores_witness :
    ∃ d₁ d₂, addLocation "spawn" (some ((1 : Nat) : Int)) scenarioDoc = some d₁ ∧
      removeLocation "spawn" ((1 : Nat) : Int) d₁ = some d₂ ∧
      getProp d₂.locations "spawn" = some [spawnEntry] ∧
      (∀ c, getProp d₂.locations c = getProp scenarioDoc.locations c) ∧
      d₂.top = scenarioDoc.top :=
  addLocation_removeLocation_restores "spawn" 1 scenarioDoc [spawnEntry] rfl (by decide)

/-! ### Reordering -/

theorem reorder_eq (items : List Entry) (src dst : Nat) (hsrc : src < items.length) :
    reorder items src dst =
      some ((items.eraseIdx src).take dst ++ items[src] :: (items.eraseIdx src).drop dst) := by
  simp only [reorder, splice_remove items src hsrc, splice_insert]

theorem cons_eraseIdx_perm {α : Type} (xs : List α) (i : Nat) (h : i < xs.length) :
    (xs[i] :: xs.eraseIdx i).Perm xs := by
  induction xs generalizing i with
  | nil => simp at h
  | cons x t ih =>
    cases i with
    | zero => simp
    | succ j =>
      have hj : j < t.length := by simpa using h
      simp only [List.getElem_cons_succ, List.eraseIdx_cons_succ]
      exact (List.Perm.swap x t[j] (t.eraseIdx j)).trans ((ih j hj).cons x)

/-- C5: `onDragEnd` with a source index and a destination index that are both valid for
the sequence of the selected category stores a sequence that is a permutation of the
original one (so of the same length), has the entry that was at the source index at the
destination index, and, with that entry taken out, is the original sequence with that
entry taken out: all other entries keep their relative order. -/
theorem onDragEnd_moves (selectedCategory : String) (json prevJson : Doc)
    (items : List Entry) (src dst : Nat)
    (hC : getProp json.locations selectedCategory = some items)
    (hsrc : src < items.length) (hdst : dst < items.length) :
    ∃ d' items', onDragEnd ⟨src, some dst⟩ selectedCategory json prevJson = some d' ∧
      getProp d'.locations selectedCategory = some items' ∧
      items'.Perm items ∧
      items'.length = items.length ∧
      items'[dst]? = items[src]? ∧
      items'.eraseIdx dst = items.eraseIdx src := by
  have hlen : (items.eraseIdx src).length = items.length - 1 :=
    List.length_eraseIdx_of_lt hsrc
  have hdst' : dst ≤ (items.eraseIdx src).length := by omega
  have hperm : ((items.eraseIdx src).take dst ++ items[src] :: (items.eraseIdx src).drop dst).Perm
      items := by
    refine List.perm_middle.trans ?_
    rw [List.take_append_drop]
    exact cons_eraseIdx_perm items src hsrc
  refine ⟨_, _, by simp [onDragEnd, hC, reorder_eq items src dst hsrc]; rfl,
    getProp_setProp_same _ _ _, hperm, hperm.length_eq, ?_, ?_⟩
  · rw [take_cons_drop_getElem?_self _ _ _ hdst', List.getElem?_eq_getElem hsrc]
  · exact eraseIdx_take_cons_drop _ _ _ hdst'

/-- C5, instance: the first of two entries dragged to the second place. -/
theorem onDragEnd_moves_witness :
    ∃ d' items', onDragEnd ⟨0, some 1⟩ "spawn"
        { scenarioDoc with locations := [("spawn", [spawnEntry, newLocation])] }
        { scenarioDoc with locations := [("spawn", [spawnEntry, newLocation])] } = some d' ∧
      getProp d'.locations "spawn" = some items' ∧
      items'.Perm [spawnEntry, newLocation] ∧
      items'.length = [spawnEntry, newLocation].length ∧
      items'[1]? = [spawnEntry, newLocation][0]? ∧
      items'.eraseIdx 1 = [spawnEntry, newLocation].eraseIdx 0 :=
  onDragEnd_moves "spawn"
    { scenarioDoc with locations := [("spawn", [spawnEntry, newLocation])] }
    { scenarioDoc with locations := [("spawn", [spawnEntry, newLocation])] }
    [spawnEntry, newLocation] 0 1 rfl (by decide) (by decide)

/-! ### The numeric fields stay numbers -/

theorem fieldsSatisfy_iff (P : JSNum → Bool) (e : Entry) :
    fieldsSatisfy P e = true ↔
      ∀ k ∈ numericParams, ∃ n, getProp e k = some (JSVal.num n) ∧ P n = true := by
  unfold fieldsSatisfy
  rw [List.all_eq_true]
  constructor
  · intro h k hk
    have hk' := h k hk
    split at hk'
    · exact ⟨_, by assumption, hk'⟩
    · exact absurd hk' (by simp)
  · intro h k hk
    obtain ⟨n, hn, hP⟩ := h k hk
    simp [hn, hP]

theorem fieldsSatisfy_mono (P Q : JSNum → Bool) (hPQ : ∀ n, P n = true → Q n = true)
    (e : Entry) (h : fieldsSatisfy P e = true) : fieldsSatisfy Q e = true := by
  rw [fieldsSatisfy_iff] at h ⊢
  intro k hk
  obtain ⟨n, hn, hP⟩ := h k hk
  exact ⟨n, hn, hPQ n hP⟩

theorem fieldsSatisfy_setProp (P : JSNum → Bool) (e : Entry) (k : String) (v : JSVal)
    (h : fieldsSatisfy P e = true)
    (hv : k ∈ numericParams → ∃ n, v = JSVal.num n ∧ P n = true) :
    fieldsSatisfy P (setProp e k v) = true := by
  rw [fieldsSatisfy_iff] at h ⊢
  intro k' hk'
  by_cases hkk : k' = k
  · subst hkk
    obtain ⟨n, hn, hP⟩ := hv hk'
    exact ⟨n, by rw [getProp_setProp_same, hn], hP⟩
  · rw [getProp_setProp_ne _ _ _ _ hkk]
    exact h k' hk'

theorem mem_setProp {α : Type} (o : List (String × α)) (k : String) (v : α)
    (p : String × α) (h : p ∈ setProp o k v) : p ∈ o ∨ p = (k, v) := by
  induction o with
  | nil =>
    simp only [setProp, List.mem_singleton] at h
    exact Or.inr h
  | cons q t ih =>
    obtain ⟨k₁, v₁⟩ := q
    by_cases hk : k₁ = k
    · simp only [setProp, hk, if_true, List.mem_cons] at h
      rcases h with h | h
      · exact Or.inr h
      · exact Or.inl (List.mem_cons_of_mem _ h)
    · simp only [setProp, hk, if_false, List.mem_cons] at h
      rcases h with h | h
      · exact Or.inl (by rw [h]; exact List.mem_cons_self _ _)
      · rcases ih h with h' | h'
        · exact Or.inl (List.mem_cons_of_mem _ h')
        · exact Or.inr h'

theorem getProp_mem {α : Type} (o : List (String × α)) (k : String) (v : α)
    (h : getProp o k = some v) : (k, v) ∈ o := by
  induction o with
  | nil => simp [getProp] at h
  | cons q t ih =>
    obtain ⟨k₁, v₁⟩ := q
    by_cases hk : k₁ = k
    · simp only [getProp, hk, if_true, Option.some.injEq] at h
      rw [hk, h]
      exact List.mem_cons_self _ _
    · simp only [getProp, hk, if_false] at h
      exact List.mem_cons_of_mem _ (ih h)

theorem entriesSatisfy_iff (P : JSNum → Bool) (d : Doc) :
    entriesSatisfy P d = true ↔
      ∀ c ∈ d.locations, ∀ e ∈ c.2, fieldsSatisfy P e = true := by
  simp [entriesSatisfy, List.all_eq_true]

theorem entriesSatisfy_category (P : JSNum → Bool) (d : Doc) (c : String)
    (items : List Entry) (h : entriesSatisfy P d = true)
    (hC : getProp d.locations c = some items) : ∀ e ∈ items, fieldsSatisfy P e = true := by
  rw [entriesSatisfy_iff] at h
  exact h (c, items) (getProp_mem _ _ _ hC)

theorem entriesSatisfy_update (P : JSNum → Bool) (d : Doc) (c : String)
    (items' : List Entry) (h : entriesSatisfy P d = true)
    (hnew : ∀ e ∈ items', fieldsSatisfy P e = true) :
    entriesSatisfy P { d with locations := setProp d.locations c items' } = true := by
  rw [entriesSatisfy_iff] at h ⊢
  intro q hq e he
  rcases mem_setProp _ _ _ _ hq with hq' | hq'
  · exact h q hq' e he
  · rw [hq'] at he
    exact hnew e he

theorem entriesSatisfy_mono (P Q : JSNum → Bool) (hPQ : ∀ n, P n = true → Q n = true)
    (d : Doc) (h : entriesSatisfy P d = true) : entriesSatisfy Q d = true := by
  rw [entriesSatisfy_iff] at h ⊢
  intro q hq e he
  exact fieldsSatisfy_mono P Q hPQ e (h q hq e he)

theorem mem_arrayMapFrom {α β : Type} (f : α → Nat → β) (s : Nat) (xs : List α) (y : β)
    (h : y ∈ arrayMapFrom f s xs) : ∃ x ∈ xs, ∃ i, y = f x i := by
  induction xs generalizing s with
  | nil => simp [arrayMapFrom] at h
  | cons x t ih =>
    simp only [arrayMapFrom, List.mem_cons] at h
    rcases h with h | h
    · exact ⟨x, List.mem_cons_self _ _, s, h⟩
    · obtain ⟨x', hx', i, hi⟩ := ih (s + 1) h
      exact ⟨x', List.mem_cons_of_mem _ hx', i, hi⟩

theorem mem_arrayFilterFrom {α : Type} (p : α → Nat → Bool) (s : Nat) (xs : List α) (y : α)
    (h : y ∈ arrayFilterFrom p s xs) : y ∈ xs := by
  induction xs generalizing s with
  | nil => simp [arrayFilterFrom] at h
  | cons x t ih =>
    simp only [arrayFilterFrom] at h
    split at h
    · simp only [List.mem_cons] at h
      rcases h with h | h
      · rw [h]
        exact List.mem_cons_self _ _
      · exact List.mem_cons_of_mem _ (ih (s + 1) h)
    · exact List.mem_cons_of_mem _ (ih (s + 1) h)

theorem mem_splice_fst {α : Type} (xs : List α) (start : Int) (dc : Nat) (ins : List α)
    (y : α) (h : y ∈ (splice xs start dc ins).1) : y ∈ xs ∨ y ∈ ins := by
  simp only [splice, List.mem_append] at h
  rcases h with (h | h) | h
  · exact Or.inl (List.mem_of_mem_take h)
  · exact Or.inr h
  · exact Or.inl (List.mem_of_mem_drop h)

theorem mem_splice_snd {α : Type} (xs : List α) (start : Int) (dc : Nat) (ins : List α)
    (y : α) (h : y ∈ (splice xs start dc ins).2) : y ∈ xs := by
  simp only [splice] at h
  exact List.mem_of_mem_drop (List.mem_of_mem_take h)

theorem mem_reorder (items r : List Entry) (src dst : Nat)
    (h : reorder items src dst = some r) : ∀ y ∈ r, y ∈ items := by
  intro y hy
  unfold reorder at h
  split at h
  · rename_i items1 it rest heq
    simp only [Option.some.injEq] at h
    rw [← h] at hy
    have h1 : ∀ z ∈ items1, z ∈ items := by
      intro z hz
      have hz' : z ∈ (splice items (src : Int) 1 []).1 := by rw [heq]; exact hz
      rcases mem_splice_fst _ _ _ _ _ hz' with h' | h'
      · exact h'
      · simp at h'
    have h2 : it ∈ items := by
      apply mem_splice_snd items (src : Int) 1 []
      rw [heq]
      exact List.mem_cons_self _ _
    rcases mem_splice_fst _ _ _ _ _ hy with h' | h'
    · exact h1 y h'
    · simp only [List.mem_singleton] at h'
      rw [h']
      exact h2
  · simp at h

theorem newLocation_finite : fieldsSatisfy JSNum.isFinite newLocation = true := by
  rfl

theorem isFinite_noNaN (n : JSNum) (h : n.isFinite = true) : (!n.isNaN) = true := by
  cases n <;> simp_all [JSNum.isFinite, JSNum.isNaN]

theorem orZero_noNaN (n : JSNum) : (!n.orZero.isNaN) = true := by
  have h := orZero_ne_nan n
  cases hn : n.orZero <;> simp_all [JSNum.isNaN]

theorem add_fin_noNaN (q : ℚ) (o : JSNum) (h : (!o.isNaN) = true) :
    (!((JSNum.fin q).add o).isNaN) = true := by
  cases o with
  | nan => simp [JSNum.isNaN] at h
  | posInf => simp [JSNum.add, JSNum.isNaN]
  | negInf => simp [JSNum.add, JSNum.isNaN]
  | fin p =>
    have hne := roundDouble_ne_nan (q + p)
    cases hr : roundDouble (q + p) <;> simp_all [JSNum.add, JSNum.isNaN]

theorem typedBulkMove_eq (rawX rawY rawZ : String) :
    typedBulkMove rawX rawY rawZ =
      ⟨(parseFloat rawX).orZero, (parseFloat rawY).orZero, (parseFloat rawZ).orZero⟩ := by
  simp [typedBulkMove, handleBulkMoveChange, BulkMove.zero]

theorem storedValue_satisfies (P : JSNum → Bool) (param value : String)
    (hP : P (parseFloat value).orZero = true) (hp : param ∈ numericParams) :
    ∃ n, storedValue param value = JSVal.num n ∧ P n = true :=
  ⟨_, storedValue_numeric param value hp, hP⟩

theorem handleLocationChange_satisfies (P : JSNum → Bool) (category : String) (index : Int)
    (param value : String) (d d' : Doc) (h : entriesSatisfy P d = true)
    (hP : param ∈ numericParams → P (parseFloat value).orZero = true)
    (hstep : handleLocationChange category index param value d = some d') :
    entriesSatisfy P d' = true := by
  cases hC : getProp d.locations category with
  | none => simp [handleLocationChange, hC] at hstep
  | some items =>
    rw [handleLocationChange_eq category index param value d items hC] at hstep
    simp only [Option.some.injEq] at hstep
    rw [← hstep]
    apply entriesSatisfy_update P d category _ h
    intro e he
    obtain ⟨x, hx, i, hi⟩ := mem_arrayMapFrom _ _ _ _ he
    have hxP := entriesSatisfy_category P d category items h hC x hx
    rw [hi]
    split
    · exact fieldsSatisfy_setProp P x param _ hxP
        (fun hp => storedValue_satisfies P param value (hP hp) hp)
    · exact hxP

theorem addLocation_satisfies (P : JSNum → Bool) (category : String) (index : Option Int)
    (d d' : Doc) (h : entriesSatisfy P d = true) (hnew : fieldsSatisfy P newLocation = true)
    (hstep : addLocation category index d = some d') : entriesSatisfy P d' = true := by
  cases hC : getProp d.locations category with
  | none => simp [addLocation, hC] at hstep
  | some items =>
    have hold := entriesSatisfy_category P d category items h hC
    simp only [addLocation, hC, Option.some.injEq] at hstep
    rw [← hstep]
    apply entriesSatisfy_update P d category _ h
    intro e he
    cases index with
    | none =>
      simp only [List.mem_append, List.mem_singleton] at he
      rcases he with he | he
      · exact hold e he
      · rw [he]
        exact hnew
    | some i =>
      rcases mem_splice_fst _ _ _ _ _ he with he | he
      · exact hold e he
      · simp only [List.mem_singleton] at he
        rw [he]
        exact hnew

theorem removeLocation_satisfies (P : JSNum → Bool) (category : String) (index : Int)
    (d d' : Doc) (h : entriesSatisfy P d = true)
    (hstep : removeLocation category index d = some d') : entriesSatisfy P d' = true := by
  cases hC : getProp d.locations category with
  | none => simp [removeLocation, hC] at hstep
  | some items =>
    have hold := entriesSatisfy_category P d category items h hC
    rw [removeLocation_eq category index d items hC] at hstep
    simp only [Option.some.injEq] at hstep
    rw [← hstep]
    apply entriesSatisfy_update P d category _ h
    intro e he
    exact hold e (mem_arrayFilterFrom _ _ _ _ he)

theorem onDragEnd_satisfies (P : JSNum → Bool) (result : DropResult)
    (selectedCategory : String) (d d' : Doc) (h : entriesSatisfy P d = true)
    (hstep : onDragEnd result selectedCategory d d = some d') :
    entriesSatisfy P d' = true := by
  unfold onDragEnd at hstep
  cases hdst : result.destinationIndex with
  | none =>
    simp only [hdst, Option.some.injEq] at hstep
    rw [← hstep]
    exact h
  | some dst =>
    cases hC : getProp d.locations selectedCategory with
    | none => simp [hdst, hC] at hstep
    | some items =>
      have hold := entriesSatisfy_category P d selectedCategory items h hC
      cases hr : reorder items result.sourceIndex dst with
      | none => simp [hdst, hC, hr] at hstep
      | some r =>
        simp only [hdst, hC, hr, Option.map_some', Option.some.injEq] at hstep
        rw [← hstep]
        apply entriesSatisfy_update P d selectedCategory _ h
        intro e he
        exact hold e (mem_reorder items r _ _ hr e he)

theorem parseFloatVal_of_finite (e : Entry) (k : String)
    (h : fieldsSatisfy JSNum.isFinite e = true) (hk : k ∈ numericParams) :
    ∃ q, parseFloatVal (getProp e k) = some (JSNum.fin q) := by
  rw [fieldsSatisfy_iff] at h
  obtain ⟨n, hn, hfin⟩ := h k hk
  cases n with
  | fin q => exact ⟨q, by rw [hn, parseFloatVal_num]⟩
  | nan => simp [JSNum.isFinite] at hfin
  | posInf => simp [JSNum.isFinite] at hfin
  | negInf => simp [JSNum.isFinite] at hfin

theorem moveLocation_noNaN (b : BulkMove) (e e' : Entry)
    (h : fieldsSatisfy JSNum.isFinite e = true)
    (hx : (!b.x.isNaN) = true) (hy : (!b.y.isNaN) = true) (hz : (!b.z.isNaN) = true)
    (hstep : moveLocation b e = some e') :
    fieldsSatisfy (fun n => !n.isNaN) e' = true := by
  obtain ⟨qx, hqx⟩ := parseFloatVal_of_finite e "x" h (by decide)
  obtain ⟨qy, hqy⟩ := parseFloatVal_of_finite e "y" h (by decide)
  obtain ⟨qz, hqz⟩ := parseFloatVal_of_finite e "z" h (by decide)
  simp only [moveLocation, hqx, hqy, hqz, Option.some.injEq] at hstep
  rw [← hstep]
  have h0 := fieldsSatisfy_mono _ (fun n => !n.isNaN) isFinite_noNaN e h
  apply fieldsSatisfy_setProp
  · apply fieldsSatisfy_setProp
    · apply fieldsSatisfy_setProp _ _ _ _ h0
      exact fun _ => ⟨_, rfl, add_fin_noNaN qx b.x hx⟩
    · exact fun _ => ⟨_, rfl, add_fin_noNaN qy b.y hy⟩
  · exact fun _ => ⟨_, rfl, add_fin_noNaN qz b.z hz⟩

theorem applyBulkMove_noNaN (selectedCategory : String) (b : BulkMove) (d d' : Doc)
    (h : docFinite d = true)
    (hx : (!b.x.isNaN) = true) (hy : (!b.y.isNaN) = true) (hz : (!b.z.isNaN) = true)
    (hstep : applyBulkMove selectedCategory b d = some d') : docNoNaN d' = true := by
  have h0 : entriesSatisfy (fun n => !n.isNaN) d = true :=
    entriesSatisfy_mono _ _ isFinite_noNaN d h
  cases hC : getProp d.locations selectedCategory with
  | none => simp [applyBulkMove, hC] at hstep
  | some items =>
    have hold := entriesSatisfy_category JSNum.isFinite d selectedCategory items h hC
    cases hm : mapThrowing (moveLocation b) items with
    | none => simp [applyBulkMove, hC, hm] at hstep
    | some moved =>
      simp only [applyBulkMove, hC, hm, Option.map_some', Option.some.injEq] at hstep
      rw [← hstep]
      apply entriesSatisfy_update _ d selectedCategory _ h0
      intro e' he'
      obtain ⟨i, hi⟩ := List.getElem?_of_mem he'
      have hb := mapThrowing_getElem? _ _ _ hm i
      rw [hi] at hb
      cases hsrc : items[i]? with
      | none => simp [hsrc] at hb
      | some e =>
        rw [hsrc, Option.some_bind] at hb
        exact moveLocation_noNaN b e e' (hold e (List.getElem?_mem hsrc)) hx hy hz hb.symm

theorem applyEdit_satisfies (e : Edit) (d d' : Doc) (hfin : docFinite d = true)
    (hstep : applyEdit e d = some d') :
    docNoNaN d' = true ∧ (e.storesFinite = true → docFinite d' = true) := by
  have h0 : entriesSatisfy (fun n => !n.isNaN) d = true :=
    entriesSatisfy_mono _ _ isFinite_noNaN d hfin
  cases e with
  | locationChange c i p v =>
    refine ⟨handleLocationChange_satisfies _ c i p v d d' h0 (fun _ => orZero_noNaN _) hstep,
      ?_⟩
    intro hs
    refine handleLocationChange_satisfies _ c i p v d d' hfin ?_ hstep
    intro hp
    simpa [Edit.storesFinite, hp] using hs
  | add c i =>
    exact ⟨addLocation_satisfies _ c i d d' h0
        (fieldsSatisfy_mono _ _ isFinite_noNaN _ newLocation_finite) hstep,
      fun _ => addLocation_satisfies _ c i d d' hfin newLocation_finite hstep⟩
  | remove c i =>
    exact ⟨removeLocation_satisfies _ c i d d' h0 hstep,
      fun _ => removeLocation_satisfies _ c i d d' hfin hstep⟩
  | drag r sel =>
    exact ⟨onDragEnd_satisfies _ r sel d d' h0 hstep,
      fun _ => onDragEnd_satisfies _ r sel d d' hfin hstep⟩
  | bulkMove sel rx ry rz =>
    refine ⟨?_, fun hs => by simp [Edit.storesFinite] at hs⟩
    simp only [applyEdit, typedBulkMove_eq] at hstep
    exact applyBulkMove_noNaN sel _ d d' hfin (orZero_noNaN _) (orZero_noNaN _)
      (orZero_noNaN _) hstep

theorem applyEdits_finite (es : List Edit) (d d' : Doc) (hfin : docFinite d = true)
    (hes : ∀ x ∈ es, x.storesFinite = true) (hrun : applyEdits es d = some d') :
    docFinite d' = true := by
  induction es generalizing d with
  | nil =>
    simp only [applyEdits, Option.some.injEq] at hrun
    rw [← hrun]
    exact hfin
  | cons e es ih =>
    cases h1 : applyEdit e d with
    | none => simp [applyEdits, h1] at hrun
    | some d1 =>
      simp only [applyEdits, h1, Option.some_bind] at hrun
      exact ih d1 ((applyEdit_satisfies e d d1 hfin h1).2 (hes e (List.mem_cons_self _ _)))
        (fun x hx => hes x (List.mem_cons_of_mem _ hx)) hrun

/-- C3, counterexample: the scenario document has only finite numeric fields, and
`handleLocationChange("spawn", 0, "x", "1e400")` stores `Infinity` in `x`: the text is a
numeric literal beyond the range of the doubles, `parseFloat` reads it as `Infinity`,
which `|| 0` keeps, and the field is no longer finite.  The sum of two finite doubles
can be an infinity as well. -/
theorem out_of_range_text_breaks_finiteness :
    docFinite scenarioDoc = true ∧
    (∃ d' e', handleLocationChange "spawn" 0 "x" "1e400" scenarioDoc = some d' ∧
      (getProp d'.locations "spawn").bind (fun items => items[0]?) = some e' ∧
      getProp e' "x" = some (JSVal.num JSNum.posInf) ∧
      docFinite d' = false) ∧
    (JSNum.fin ((2 : ℚ) ^ (1023 : ℤ))).add (JSNum.fin ((2 : ℚ) ^ (1023 : ℤ))) = JSNum.posInf := by
  refine ⟨rfl, ⟨{ scenarioDoc with
      locations := [("spawn", [setProp spawnEntry "x" (JSVal.num JSNum.posInf)])] },
    setProp spawnEntry "x" (JSVal.num JSNum.posInf), ?_, rfl, rfl, rfl⟩, ?_⟩
  · rw [handleLocationChange_eq "spawn" 0 "x" "1e400" scenarioDoc [spawnEntry] rfl,
      storedValue_numeric "x" "1e400" (by decide), parseFloat_out_of_range]
    rfl
  · rw [add_fin_fin]
    apply roundDouble_overflow
    have h : (2 : ℚ) ^ (1024 : ℤ) = (2 : ℚ) ^ (1023 : ℤ) * 2 := by
      rw [show (1024 : ℤ) = 1023 + 1 from rfl, zpow_add_one₀ (by norm_num : (2 : ℚ) ≠ 0)]
    rw [h]
    linarith

/-- C3, amended: starting from a document in which every entry's `x`, `y`, `z`, `yaw`,
`pitch` are finite numbers, after any sequence of edits by `handleLocationChange`,
`addLocation`, `removeLocation` and `onDragEnd`, none of which gives a numeric field a
text that `parseFloat` reads as an infinity, every entry's five numeric fields are
still finite numbers; after one further edit of any kind with any raw input
(`applyBulkMove` with offsets typed into the offset inputs included) they are still
numbers and none is `NaN`, and they are finite when that edit too is of the kind
above. -/
theorem edits_keep_numbers (es : List Edit) (e : Edit) (d d₁ d₂ : Doc)
    (hfin : docFinite d = true) (hes : ∀ x ∈ es, x.storesFinite = true)
    (hrun : applyEdits es d = some d₁) (hstep : applyEdit e d₁ = some d₂) :
    docFinite d₁ = true ∧ docNoNaN d₂ = true ∧
      (e.storesFinite = true → docFinite d₂ = true) := by
  have h1 := applyEdits_finite es d d₁ hfin hes hrun
  exact ⟨h1, applyEdit_satisfies e d₁ d₂ h1 hstep⟩

/-- C3, instance: an entry inserted at the head of the scenario category, then its `x`
edited to the text `"abc"`, stored as `0`. -/
theorem edits_keep_numbers_witness :
    docFinite { scenarioDoc with
        locations := [("spawn", [newLocation, spawnEntry])] } = true ∧
      docNoNaN { scenarioDoc with
        locations := [("spawn",
          [setProp newLocation "x" (JSVal.num (JSNum.fin 0)), spawnEntry])] } = true ∧
      ((Edit.locationChange "spawn" 0 "x" "abc").storesFinite = true →
        docFinite { scenarioDoc with
          locations := [("spawn",
            [setProp newLocation "x" (JSVal.num (JSNum.fin 0)), spawnEntry])] } = true) :=
  edits_keep_numbers [Edit.add "spawn" (some 0)] (Edit.locationChange "spawn" 0 "x" "abc")
    scenarioDoc
    { scenarioDoc with locations := [("spawn", [newLocation, spawnEntry])] }
    { scenarioDoc with
      locations := [("spawn",
        [setProp newLocation "x" (JSVal.num (JSNum.fin 0)), spawnEntry])] }
    rfl (by decide) rfl rfl

/-! ### Values that are not finite numbers -/

/-- C9: on a loaded document whose entry holds the text `"abc"` in `x`, `applyBulkMove`
with offset `(1, 2, 3)` stores `NaN` in `x`, not the offset component `1`:
`parseFloat("abc")` is `NaN` and nothing replaces it by `0` before the addition. -/
theorem applyBulkMove_text_coordinate :
    ∃ d' e', applyBulkMove "spawn" ⟨JSNum.fin 1, JSNum.fin 2, JSNum.fin 3⟩ textCoordinateDoc
        = some d' ∧
      (getProp d'.locations "spawn").bind (fun items => items[0]?) = some e' ∧
      getProp e' "x" = some (JSVal.num JSNum.nan) ∧
      getProp e' "x" ≠ some (JSVal.num (JSNum.fin 1)) := by
  refine ⟨_, _, rfl, rfl, rfl, ?_⟩
  intro h
  have h' : some (JSVal.num JSNum.nan) = some (JSVal.num (JSNum.fin 1)) := h
  simp at h'

/-- C10: on the scenario document, clearing the Death Height input (its `onChange`
receives the empty text) stores `NaN` in `deathHeight`; `JSON.stringify` writes it as
`null`, so the document read back holds `null` where the store holds `NaN`, and is not
equal to the store. -/
theorem deathHeight_cleared_round_trip :
    ∃ d', deathHeightOnChange "" scenarioDoc = some d' ∧
      d'.toJS.prop "deathHeight" = some (JSVal.num JSNum.nan) ∧
      (JSON.parse (JSON.stringify d'.toJS)).prop "deathHeight" = some JSVal.null ∧
      JSON.parse (JSON.stringify d'.toJS) ≠ d'.toJS := by
  refine ⟨_, rfl, rfl, rfl, ?_⟩
  intro h
  have h' := congrArg (fun v => JSVal.prop v "deathHeight") h
  have h'' : some JSVal.null = some (JSVal.num JSNum.nan) := h'
  simp at h''

/-! ### A reorder is undone by the opposite reorder -/

theorem take_cons_drop_eraseIdx {α : Type} (xs : List α) (i : Nat) (h : i < xs.length) :
    (xs.eraseIdx i).take i ++ xs[i] :: (xs.eraseIdx i).drop i = xs := by
  induction xs generalizing i with
  | nil => simp at h
  | cons x t ih =>
    cases i with
    | zero => simp
    | succ j =>
      have hj : j < t.length := by simpa using h
      simp only [List.eraseIdx_cons_succ, List.take_succ_cons, List.drop_succ_cons,
        List.getElem_cons_succ, List.cons_append]
      rw [ih j hj]

theorem reorder_back (items : List Entry) (src dst : Nat) (hsrc : src < items.length)
    (hdst : dst < items.length) :
    ∃ moved, reorder items src dst = some moved ∧ reorder moved dst src = some items := by
  have hlen : (items.eraseIdx src).length = items.length - 1 :=
    List.length_eraseIdx_of_lt hsrc
  have hdst' : dst ≤ (items.eraseIdx src).length := by omega
  refine ⟨_, reorder_eq items src dst hsrc, ?_⟩
  have hmlen : dst < ((items.eraseIdx src).take dst ++
      items[src] :: (items.eraseIdx src).drop dst).length := by
    simp only [List.length_append, List.length_take, List.length_cons, List.length_drop]
    omega
  rw [reorder_eq _ dst src hmlen, eraseIdx_take_cons_drop _ _ _ hdst']
  have hget : ((items.eraseIdx src).take dst ++
      items[src] :: (items.eraseIdx src).drop dst)[dst] = items[src] := by
    have h := take_cons_drop_getElem?_self (items.eraseIdx src) dst items[src] hdst'
    rw [List.getElem?_eq_getElem hmlen] at h
    exact Option.some.inj h
  rw [hget, take_cons_drop_eraseIdx items src hsrc]

theorem reorder_same (items : List Entry) (src : Nat) (hsrc : src < items.length) :
    reorder items src src = some items := by
  rw [reorder_eq items src src hsrc, take_cons_drop_eraseIdx items src hsrc]

theorem setProp_setProp {α : Type} (o : List (String × α)) (k : String) (v w : α) :
    setProp (setProp o k v) k w = setProp o k w := by
  induction o with
  | nil => simp [setProp]
  | cons p t ih =>
    obtain ⟨k₁, v₁⟩ := p
    by_cases h : k₁ = k
    · simp [setProp, h]
    · simp [setProp, h, ih]

/-- C16: for valid indices `src` and `dst` of the sequence of the selected category, the
`onDragEnd` move from `src` to `dst` followed by the move from `dst` to `src` stores the
original sequence again, and leaves every category and the top-level properties as
they were; a move with `src = dst` stores the sequence unchanged. -/
theorem onDragEnd_undone (selectedCategory : String) (json : Doc) (items : List Entry)
    (src dst : Nat) (hC : getProp json.locations selectedCategory = some items)
    (hsrc : src < items.length) (hdst : dst < items.length) :
    (∃ d₁ d₂, onDragEnd ⟨src, some dst⟩ selectedCategory json json = some d₁ ∧
      onDragEnd ⟨dst, some src⟩ selectedCategory d₁ d₁ = some d₂ ∧
      getProp d₂.locations selectedCategory = some items ∧
      (∀ c, getProp d₂.locations c = getProp json.locations c) ∧
      d₂.top = json.top) ∧
    (∃ d', onDragEnd ⟨src, some src⟩ selectedCategory json json = some d' ∧
      getProp d'.locations selectedCategory = some items) := by
  obtain ⟨moved, hmove, hback⟩ := reorder_back items src dst hsrc hdst
  constructor
  · refine ⟨{ json with locations := setProp json.locations selectedCategory moved },
      { json with locations := setProp json.locations selectedCategory items },
      by simp [onDragEnd, hC, hmove], ?_, getProp_setProp_same _ _ _, ?_, rfl⟩
    · simp [onDragEnd, getProp_setProp_same, hback, setProp_setProp]
    · intro c
      by_cases hc : c = selectedCategory
      · subst hc
        rw [getProp_setProp_same, hC]
      · exact getProp_setProp_ne _ _ _ _ hc
  · exact ⟨{ json with locations := setProp json.locations selectedCategory items },
      by simp [onDragEnd, hC, reorder_same items src hsrc], getProp_setProp_same _ _ _⟩

/-- C16, instance: the first of two entries dragged to the second place and back. -/
theorem onDragEnd_undone_witness :
    (∃ d₁ d₂, onDragEnd ⟨0, some 1⟩ "spawn"
        { scenarioDoc with locations := [("spawn", [spawnEntry, newLocation])] }
        { scenarioDoc with locations := [("spawn", [spawnEntry, newLocation])] } = some d₁ ∧
      onDragEnd ⟨1, some 0⟩ "spawn" d₁ d₁ = some d₂ ∧
      getProp d₂.locations "spawn" = some [spawnEntry, newLocation] ∧
      (∀ c, getProp d₂.locations c =
        getProp ({ scenarioDoc with
          locations := [("spawn", [spawnEntry, newLocation])] } : Doc).locations c) ∧
      d₂.top = ({ scenarioDoc with
        locations := [("spawn", [spawnEntry, newLocation])] } : Doc).top) ∧
    (∃ d', onDragEnd ⟨0, some 0⟩ "spawn"
        { scenarioDoc with locations := [("spawn", [spawnEntry, newLocation])] }
        { scenarioDoc with locations := [("spawn", [spawnEntry, newLocation])] } = some d' ∧
      getProp d'.locations "spawn" = some [spawnEntry, newLocation]) :=
  onDragEnd_undone "spawn"
    { scenarioDoc with locations := [("spawn", [spawnEntry, newLocation])] }
    [spawnEntry, newLocation] 0 1 rfl (by decide) (by decide)

/-! ### The fetch target -/

theorem split_shape (sep : Char) (cs : List Char) :
    ∃ init last, split sep cs = init ++ [last] ∧ sep ∉ last ∧
      (init = [] → cs = last) ∧ (init ≠ [] → ∃ pre, cs = pre ++ sep :: last) := by
  induction cs with
  | nil => exact ⟨[], [], rfl, by simp, fun _ => rfl, fun h => absurd rfl h⟩
  | cons c t ih =>
    obtain ⟨init, last, hsplit, hlast, hnil, hcons⟩ := ih
    by_cases hc : c = sep
    · refine ⟨[] :: init, last, by simp [split, hc, hsplit], hlast, by simp, fun _ => ?_⟩
      by_cases hinit : init = []
      · exact ⟨[], by simp [hc, hnil hinit]⟩
      · obtain ⟨pre, hpre⟩ := hcons hinit
        exact ⟨c :: pre, by simp [hpre]⟩
    · cases init with
      | nil =>
        refine ⟨[], c :: last, by simp [split, hc, hsplit], ?_, fun _ => ?_,
          fun h => absurd rfl h⟩
        · simp only [List.mem_cons, not_or]
          exact ⟨fun h => hc h.symm, hlast⟩
        · rw [hnil rfl]
      | cons i₀ rest =>
        refine ⟨(c :: i₀) :: rest, last, by simp [split, hc, hsplit], hlast, by simp,
          fun _ => ?_⟩
        obtain ⟨pre, hpre⟩ := hcons (by simp)
        exact ⟨c :: pre, by simp [hpre]⟩

theorem lastSegment_spec (cs : List Char) :
    '/' ∉ lastSegment cs ∧
      ('/' ∈ cs → ∃ pre, cs = pre ++ '/' :: lastSegment cs) ∧
      ('/' ∉ cs → lastSegment cs = cs) := by
  obtain ⟨init, last, hsplit, hlast, hnil, hcons⟩ := split_shape '/' cs
  have hseg : lastSegment cs = last := by
    simp [lastSegment, hsplit]
  rw [hseg]
  refine ⟨hlast, ?_, ?_⟩
  · intro hmem
    by_cases hinit : init = []
    · rw [hnil hinit] at hmem
      exact absurd hmem hlast
    · exact hcons hinit
  · intro hmem
    by_cases hinit : init = []
    · exact (hnil hinit).symm
    · obtain ⟨pre, hpre⟩ := hcons hinit
      rw [hpre] at hmem
      exact absurd (by simp) hmem

theorem includes_iff (needle cs : List Char) :
    includes needle cs = true ↔ ∃ a b, cs = a ++ needle ++ b := by
  induction cs with
  | nil =>
    simp only [includes, List.isEmpty_iff]
    constructor
    · intro h
      exact ⟨[], [], by simp [h]⟩
    · rintro ⟨a, b, h⟩
      have h' := congrArg List.length h
      simp only [List.length_nil, List.length_append] at h'
      exact List.length_eq_zero.mp (by omega)
  | cons c t ih =>
    simp only [includes, Bool.or_eq_true, List.isPrefixOf_iff_prefix, ih]
    constructor
    · rintro (⟨b, hb⟩ | ⟨a, b, hab⟩)
      · exact ⟨[], b, by simp [hb]⟩
      · exact ⟨c :: a, b, by simp [hab]⟩
    · rintro ⟨a, b, hab⟩
      cases a with
      | nil => exact Or.inl ⟨b, by simpa using hab.symm⟩
      | cons a₀ a' =>
        simp only [List.cons_append, List.cons.injEq] at hab
        exact Or.inr ⟨a', b, hab.2⟩

/-- C14: with `url` the trimmed input, when `url` starts with
`https://paste.cytooxien.de/` and does not contain `/raw/`, the fetch target is
`https://paste.cytooxien.de/raw/` followed by the final segment of `url` (the part
after its last `/`, which holds no `/`); for every other input the fetch target is
`url` itself.  The input `https://paste.cytooxien.de/abcd` gives
`https://paste.cytooxien.de/raw/abcd`. -/
theorem fetchTarget_rewrites (urlInput : String) :
    ((∃ rest, trim urlInput.toList = pasteHost ++ rest) →
      (¬ ∃ a b, trim urlInput.toList = a ++ rawMarker ++ b) →
      ∃ pre id, trim urlInput.toList = pre ++ '/' :: id ∧ '/' ∉ id ∧
        fetchTarget urlInput = String.mk (pasteHost ++ "raw/".toList ++ id)) ∧
    (¬ ((∃ rest, trim urlInput.toList = pasteHost ++ rest) ∧
        ¬ ∃ a b, trim urlInput.toList = a ++ rawMarker ++ b) →
      fetchTarget urlInput = String.mk (trim urlInput.toList)) ∧
    fetchTarget "https://paste.cytooxien.de/abcd" = "https://paste.cytooxien.de/raw/abcd" := by
  have hstart : pasteHost.isPrefixOf (trim urlInput.toList) = true ↔
      ∃ rest, trim urlInput.toList = pasteHost ++ rest := by
    rw [List.isPrefixOf_iff_prefix]
    constructor
    · rintro ⟨rest, h⟩
      exact ⟨rest, h.symm⟩
    · rintro ⟨rest, h⟩
      exact ⟨rest, h.symm⟩
  have hraw := includes_iff rawMarker (trim urlInput.toList)
  refine ⟨?_, ?_, by decide⟩
  · intro hs hr
    have hslash : '/' ∈ trim urlInput.toList := by
      obtain ⟨rest, h⟩ := hs
      rw [h]
      simp [pasteHost]
    obtain ⟨hno, hpre, _⟩ := lastSegment_spec (trim urlInput.toList)
    obtain ⟨pre, hp⟩ := hpre hslash
    refine ⟨pre, lastSegment (trim urlInput.toList), hp, hno, ?_⟩
    have h1 : pasteHost.isPrefixOf (trim urlInput.toList) = true := hstart.mpr hs
    have h2 : includes rawMarker (trim urlInput.toList) = false := by
      cases hin : includes rawMarker (trim urlInput.toList) with
      | false => rfl
      | true => exact absurd (hraw.mp hin) hr
    show (if pasteHost.isPrefixOf (trim urlInput.toList) &&
        !includes rawMarker (trim urlInput.toList) then _ else _) = _
    rw [h1, h2]
    rfl
  · intro hnot
    by_cases h1 : pasteHost.isPrefixOf (trim urlInput.toList) = true
    · have h2 : includes rawMarker (trim urlInput.toList) = true := by
        cases hin : includes rawMarker (trim urlInput.toList) with
        | true => rfl
        | false =>
          refine absurd ⟨hstart.mp h1, fun hex => ?_⟩ hnot
          rw [hraw.mpr hex] at hin
          exact Bool.noConfusion hin
      show (if pasteHost.isPrefixOf (trim urlInput.toList) &&
          !includes rawMarker (trim urlInput.toList) then _ else _) = _
      rw [h1, h2]
      rfl
    · show (if pasteHost.isPrefixOf (trim urlInput.toList) &&
          !includes rawMarker (trim urlInput.toList) then _ else _) = _
      rw [Bool.eq_false_iff.mpr h1]
      rfl

/-! ### Ingestion -/

theorem parseText_not_json : JSON.parseText "\x7bnot json" = none := by
  rfl

theorem parseText_empty_object : JSON.parseText "\x7b\x7d" = some (JSVal.obj []) := by
  rfl

/-- A text whose string holds an escaped lone surrogate is JSON: `JSON.parse` accepts
`{"name":"\ud800","locations":{}}`. -/
theorem parseText_lone_surrogate :
    JSON.parseText "\x7b\"name\":\"\\ud800\",\"locations\":\x7b\x7d\x7d" =
      some (JSVal.obj [("name", JSVal.str (String.mk [JSON.loneSurrogate])),
        ("locations", JSVal.obj [])]) := by
  rfl

theorem parseText_scenario : JSON.parseText scenarioText = some scenarioDoc.toJS := by
  have h : JSON.readText scenarioText = some (JText.object
      [("name", JText.string "M"),
       ("deathHeight", JText.number (JSON.NumberLiteral.value ⟨true, ⟨64, 0⟩⟩)),
       ("locations", JText.object [("spawn", JText.array [JText.object
          [("x", JText.number (JSON.NumberLiteral.value ⟨false, ⟨1, 0⟩⟩)),
           ("y", JText.number (JSON.NumberLiteral.value ⟨false, ⟨2, 0⟩⟩)),
           ("z", JText.number (JSON.NumberLiteral.value ⟨false, ⟨3, 0⟩⟩)),
           ("yaw", JText.number (JSON.NumberLiteral.value ⟨false, ⟨0, 0⟩⟩)),
           ("pitch", JText.number (JSON.NumberLiteral.value ⟨false, ⟨0, 0⟩⟩)),
           ("customOptions", JText.object [])]])])]) := by
    rfl
  have hm64 : roundDouble (-64) = JSNum.fin (-64) := by
    simpa using roundDouble_intCast (-64) (by norm_num)
  have h0 : roundDouble 0 = JSNum.fin 0 := by
    simpa using roundDouble_intCast 0 (by norm_num)
  have h1 : roundDouble 1 = JSNum.fin 1 := by
    simpa using roundDouble_intCast 1 (by norm_num)
  have h2 : roundDouble 2 = JSNum.fin 2 := by
    simpa using roundDouble_intCast 2 (by norm_num)
  have h3 : roundDouble 3 = JSNum.fin 3 := by
    simpa using roundDouble_intCast 3 (by norm_num)
  simp [JSON.parseText, h, JSON.parse, JSON.parseProps, JSON.parseList, setProp,
    JSON.NumberLiteral.value, Doc.toJS, scenarioDoc, spawnEntry, hm64, h0, h1, h2, h3]

theorem handleFileUpload_success (f : File) (text : String) (v : JSVal) (s : State)
    (ht : f.text = some text) (hp : JSON.parseText text = some v) :
    handleFileUpload (some f) s = { s with fileName := f.name, json := v } := by
  simp [handleFileUpload, ht, hp]

theorem handleFileUpload_failure (f : File) (text : String) (s : State)
    (ht : f.text = some text) (hp : JSON.parseText text = none) :
    handleFileUpload (some f) s = { s with fileName := f.name } := by
  simp [handleFileUpload, ht, hp]

theorem handleUrlFetch_success (fetch : String → Option Response) (r : Response) (v : JSVal)
    (s : State) (hf : fetch (fetchTarget s.urlInput) = some r) (hok : r.ok = true)
    (hp : JSON.parseText r.body = some v) :
    handleUrlFetch fetch s =
      { s with
        fetchError := none
        json := v
        fileName := fetchedLabel (fetchTarget s.urlInput) } := by
  simp [handleUrlFetch, hf, hok, hp]

theorem handleUrlFetch_failure (fetch : String → Option Response) (s : State)
    (h : fetch (fetchTarget s.urlInput) = none ∨
      ∃ r, fetch (fetchTarget s.urlInput) = some r ∧
        (r.ok = false ∨ JSON.parseText r.body = none)) :
    handleUrlFetch fetch s = { s with fetchError := some urlErrorMessage } := by
  rcases h with h | ⟨r, hr, hbad⟩
  · simp [handleUrlFetch, h]
  · cases hok : r.ok with
    | false => simp [handleUrlFetch, hr, hok]
    | true =>
      rcases hbad with hbad | hbad
      · rw [hok] at hbad
        exact Bool.noConfusion hbad
      · simp [handleUrlFetch, hr, hok, hbad]

theorem handleJsonPaste_success (v : JSVal) (s : State)
    (hp : JSON.parseText s.jsonInput = some v) :
    handleJsonPaste s =
      { s with json := v, fileName := "Pasted JSON", fetchError := none } := by
  simp [handleJsonPaste, hp]

theorem handleJsonPaste_failure (s : State) (hp : JSON.parseText s.jsonInput = none) :
    handleJsonPaste s = { s with fetchError := some pasteErrorMessage } := by
  simp [handleJsonPaste, hp]

/-- C11: after a paste of `{not json` has failed and left its error message, a
successful upload of a file holding the scenario document replaces the store with the
parsed document but leaves the error message in place: `handleFileUpload` never sets
`fetchError`. -/
theorem file_upload_leaves_error :
    (handleJsonPaste { State.initial with jsonInput := "\x7bnot json" }).fetchError
      = some pasteErrorMessage ∧
    (handleFileUpload (some ⟨"map.json", some scenarioText⟩)
      (handleJsonPaste { State.initial with jsonInput := "\x7bnot json" })).json
      = scenarioDoc.toJS ∧
    (handleFileUpload (some ⟨"map.json", some scenarioText⟩)
      (handleJsonPaste { State.initial with jsonInput := "\x7bnot json" })).fetchError
      = some pasteErrorMessage ∧
    (handleFileUpload (some ⟨"map.json", some scenarioText⟩)
      (handleJsonPaste { State.initial with jsonInput := "\x7bnot json" })).fetchError
      ≠ none := by
  have h1 : handleJsonPaste { State.initial with jsonInput := "\x7bnot json" } =
      { State.initial with jsonInput := "\x7bnot json", fetchError := some pasteErrorMessage } :=
    handleJsonPaste_failure _ parseText_not_json
  rw [h1, handleFileUpload_success ⟨"map.json", some scenarioText⟩ scenarioText
    scenarioDoc.toJS _ rfl parseText_scenario]
  exact ⟨rfl, rfl, rfl, by simp⟩

/-- C12: a failed ingestion leaves the store as it was.  A file whose text is not JSON
leaves the error state as it was too; a URL ingestion that fails (the fetch rejects,
the response is not `ok`, or its body is not JSON) and a paste that is not JSON leave
one error message, which is not empty.  Pasting `{not json` is such a failure. -/
theorem failed_ingestion_keeps_store (s : State) :
    (∀ (f : File) (text : String), f.text = some text → JSON.parseText text = none →
      (handleFileUpload (some f) s).json = s.json ∧
      (handleFileUpload (some f) s).fetchError = s.fetchError) ∧
    (∀ fetch : String → Option Response,
      (fetch (fetchTarget s.urlInput) = none ∨
        ∃ r, fetch (fetchTarget s.urlInput) = some r ∧
          (r.ok = false ∨ JSON.parseText r.body = none)) →
      (handleUrlFetch fetch s).json = s.json ∧
      (handleUrlFetch fetch s).fetchError = some urlErrorMessage ∧
      urlErrorMessage ≠ "") ∧
    (JSON.parseText s.jsonInput = none →
      (handleJsonPaste s).json = s.json ∧
      (handleJsonPaste s).fetchError = some pasteErrorMessage ∧
      pasteErrorMessage ≠ "") ∧
    ((handleJsonPaste { s with jsonInput := "\x7bnot json" }).json = s.json ∧
      (handleJsonPaste { s with jsonInput := "\x7bnot json" }).fetchError
        = some pasteErrorMessage) := by
  refine ⟨?_, ?_, ?_, ?_⟩
  · intro f text ht hp
    rw [handleFileUpload_failure f text s ht hp]
    exact ⟨rfl, rfl⟩
  · intro fetch h
    rw [handleUrlFetch_failure fetch s h]
    exact ⟨rfl, rfl, by decide⟩
  · intro hp
    rw [handleJsonPaste_failure s hp]
    exact ⟨rfl, rfl, by decide⟩
  · rw [handleJsonPaste_failure { s with jsonInput := "\x7bnot json" } parseText_not_json]
    exact ⟨rfl, rfl⟩

/-- C12, instance: the three failures on a store that holds the scenario document. -/
theorem failed_ingestion_keeps_store_witness :
    (∀ (f : File) (text : String), f.text = some text → JSON.parseText text = none →
      (handleFileUpload (some f)
        { State.initial with json := scenarioDoc.toJS }).json
        = scenarioDoc.toJS ∧
      (handleFileUpload (some f)
        { State.initial with json := scenarioDoc.toJS }).fetchError = none) ∧
    (∀ fetch : String → Option Response,
      (fetch (fetchTarget "") = none ∨
        ∃ r, fetch (fetchTarget "") = some r ∧
          (r.ok = false ∨ JSON.parseText r.body = none)) →
      (handleUrlFetch fetch { State.initial with json := scenarioDoc.toJS }).json
        = scenarioDoc.toJS ∧
      (handleUrlFetch fetch { State.initial with json := scenarioDoc.toJS }).fetchError
        = some urlErrorMessage ∧
      urlErrorMessage ≠ "") ∧
    (JSON.parseText "" = none →
      (handleJsonPaste { State.initial with json := scenarioDoc.toJS }).json
        = scenarioDoc.toJS ∧
      (handleJsonPaste { State.initial with json := scenarioDoc.toJS }).fetchError
        = some pasteErrorMessage ∧
      pasteErrorMessage ≠ "") ∧
    ((handleJsonPaste { State.initial with
        json := scenarioDoc.toJS, jsonInput := "\x7bnot json" }).json
        = scenarioDoc.toJS ∧
      (handleJsonPaste { State.initial with
        json := scenarioDoc.toJS, jsonInput := "\x7bnot json" }).fetchError
        = some pasteErrorMessage) :=
  failed_ingestion_keeps_store { State.initial with json := scenarioDoc.toJS }

/-- C13, counterexample: with the scenario document loaded and `spawn` selected, a
successful paste of `{}` replaces the store with the empty object and the selected
category is still `spawn`, not the empty selection. -/
theorem paste_keeps_selection :
    (handleJsonPaste { State.initial with
      json := scenarioDoc.toJS, selectedCategory := "spawn",
      jsonInput := "\x7b\x7d" }).json = JSVal.obj [] ∧
    (handleJsonPaste { State.initial with
      json := scenarioDoc.toJS, selectedCategory := "spawn",
      jsonInput := "\x7b\x7d" }).selectedCategory = "spawn" ∧
    (handleJsonPaste { State.initial with
      json := scenarioDoc.toJS, selectedCategory := "spawn",
      jsonInput := "\x7b\x7d" }).selectedCategory ≠ "" := by
  rw [handleJsonPaste_success (JSVal.obj []) _ parseText_empty_object]
  exact ⟨rfl, rfl, by decide⟩

/-- C13, amended: an ingestion through a file, a URL or a paste, successful or not,
leaves the selected category as it was: the selection is kept when a new document
replaces the store. -/
theorem ingestion_keeps_selection (s : State) (file : Option File)
    (fetch : String → Option Response) :
    (handleFileUpload file s).selectedCategory = s.selectedCategory ∧
    (handleUrlFetch fetch s).selectedCategory = s.selectedCategory ∧
    (handleJsonPaste s).selectedCategory = s.selectedCategory := by
  refine ⟨?_, ?_, ?_⟩
  · unfold handleFileUpload
    repeat (first | rfl | split)
  · unfold handleUrlFetch
    repeat (first | rfl | split)
  · unfold handleJsonPaste
    repeat (first | rfl | split)

theorem last_segment_unique (a b x y : List Char) (h : a ++ '/' :: x = b ++ '/' :: y)
    (hx : '/' ∉ x) (hy : '/' ∉ y) : x = y := by
  induction a generalizing b with
  | nil =>
    cases b with
    | nil => simpa using h
    | cons b₀ b' =>
      simp only [List.nil_append, List.cons_append, List.cons.injEq] at h
      exact absurd (by rw [h.2]; simp) hx
  | cons a₀ a' ih =>
    cases b with
    | nil =>
      simp only [List.nil_append, List.cons_append, List.cons.injEq] at h
      exact absurd (by rw [← h.2]; simp) hy
    | cons b₀ b' =>
      simp only [List.cons_append, List.cons.injEq] at h
      exact ih b' h.2

theorem lastSegment_append (pre id : List Char) (hid : '/' ∉ id) :
    lastSegment (pre ++ '/' :: id) = id := by
  obtain ⟨hno, hpre, _⟩ := lastSegment_spec (pre ++ '/' :: id)
  obtain ⟨pre', hp⟩ := hpre (by simp)
  exact (last_segment_unique pre pre' id _ hp hid hno).symm

theorem lastSegment_fetchTarget (urlInput : String) :
    lastSegment (fetchTarget urlInput).toList = lastSegment (trim urlInput.toList) := by
  unfold fetchTarget
  simp only []
  split
  · have hno := (lastSegment_spec (trim urlInput.toList)).1
    show lastSegment (pasteHost ++ "raw/".toList ++ lastSegment (trim urlInput.toList)) = _
    have hsplit : pasteHost ++ "raw/".toList ++ lastSegment (trim urlInput.toList) =
        (pasteHost ++ "raw".toList) ++ '/' :: lastSegment (trim urlInput.toList) := by
      simp [pasteHost]
    rw [hsplit, lastSegment_append _ _ hno]
  · rfl

/-- C15, counterexample: a successful URL ingestion of `https://example.com/maps/`
records the label `Fetched JSON`, not the final segment of the URL, which is empty;
and an upload of a file `bad.json` whose text is not JSON records the label `bad.json`
although the ingestion failed. -/
theorem label_not_by_rule :
    ((handleUrlFetch (fun _ => some ⟨true, 200, "\x7b\x7d"⟩)
        { State.initial with urlInput := "https://example.com/maps/" }).json
        = JSVal.obj [] ∧
      (handleUrlFetch (fun _ => some ⟨true, 200, "\x7b\x7d"⟩)
        { State.initial with urlInput := "https://example.com/maps/" }).fileName
        = "Fetched JSON" ∧
      lastSegment "https://example.com/maps/".toList = []) ∧
    ((handleFileUpload (some ⟨"bad.json", some "\x7bnot json"⟩)
        { State.initial with fileName := "Pasted JSON" }).json = JSVal.null ∧
      (handleFileUpload (some ⟨"bad.json", some "\x7bnot json"⟩)
        { State.initial with fileName := "Pasted JSON" }).fileName = "bad.json") := by
  constructor
  · rw [handleUrlFetch_success (fun _ => some ⟨true, 200, "\x7b\x7d"⟩)
      ⟨true, 200, "\x7b\x7d"⟩ (JSVal.obj []) _ rfl rfl parseText_empty_object]
    exact ⟨rfl, by decide, by decide⟩
  · rw [handleFileUpload_failure ⟨"bad.json", some "\x7bnot json"⟩ "\x7bnot json" _ rfl
      parseText_not_json]
    exact ⟨rfl, rfl⟩

/-- C15, amended: a successful ingestion records the label of its path: the name of
the file for a file; for a URL the text of the trimmed URL after its last `/` (the
whole of it when it has none; `example.com` for `https://example.com`), or the text
`Fetched JSON` when nothing follows the last `/`; the text `Pasted JSON` for a paste.
A failed URL ingestion and a failed paste leave the label as it was. -/
theorem ingestion_label (s : State) :
    (∀ (f : File) (text : String) (v : JSVal), f.text = some text →
      JSON.parseText text = some v →
      (handleFileUpload (some f) s).fileName = f.name) ∧
    (∀ (fetch : String → Option Response) (r : Response) (v : JSVal),
      fetch (fetchTarget s.urlInput) = some r → r.ok = true →
      JSON.parseText r.body = some v →
      (handleUrlFetch fetch s).fileName =
        if (lastSegment (trim s.urlInput.toList)).isEmpty then "Fetched JSON"
        else String.mk (lastSegment (trim s.urlInput.toList))) ∧
    (∀ v : JSVal, JSON.parseText s.jsonInput = some v →
      (handleJsonPaste s).fileName = "Pasted JSON") ∧
    (∀ fetch : String → Option Response,
      (fetch (fetchTarget s.urlInput) = none ∨
        ∃ r, fetch (fetchTarget s.urlInput) = some r ∧
          (r.ok = false ∨ JSON.parseText r.body = none)) →
      (handleUrlFetch fetch s).fileName = s.fileName) ∧
    (JSON.parseText s.jsonInput = none → (handleJsonPaste s).fileName = s.fileName) ∧
    (handleUrlFetch (fun _ => some ⟨true, 200, "\x7b\x7d"⟩)
      { State.initial with urlInput := "https://example.com" }).fileName = "example.com" ∧
    (handleUrlFetch (fun _ => some ⟨true, 200, "\x7b\x7d"⟩)
      { State.initial with urlInput := "https://example.com/maps/a.json" }).fileName
      = "a.json" := by
  refine ⟨?_, ?_, ?_, ?_, ?_, ?_, ?_⟩
  · intro f text v ht hp
    rw [handleFileUpload_success f text v s ht hp]
  · intro fetch r v hf hok hp
    rw [handleUrlFetch_success fetch r v s hf hok hp]
    show fetchedLabel (fetchTarget s.urlInput) = _
    unfold fetchedLabel
    rw [lastSegment_fetchTarget]
  · intro v hp
    rw [handleJsonPaste_success v s hp]
  · intro fetch h
    rw [handleUrlFetch_failure fetch s h]
  · intro hp
    rw [handleJsonPaste_failure s hp]
  · rw [handleUrlFetch_success (fun _ => some ⟨true, 200, "\x7b\x7d"⟩)
      ⟨true, 200, "\x7b\x7d"⟩ (JSVal.obj []) _ rfl rfl parseText_empty_object]
    decide
  · rw [handleUrlFetch_success (fun _ => some ⟨true, 200, "\x7b\x7d"⟩)
      ⟨true, 200, "\x7b\x7d"⟩ (JSVal.obj []) _ rfl rfl parseText_empty_object]
    decide

/-- C15, instance: the labels recorded from a state whose URL input is
`https://example.com/maps/a.json` and whose paste input is `{}`. -/
theorem ingestion_label_witness :
    (∀ (f : File) (text : String) (v : JSVal), f.text = some text →
      JSON.parseText text = some v →
      (handleFileUpload (some f) { State.initial with
        urlInput := "https://example.com/maps/a.json", jsonInput := "\x7b\x7d" }).fileName
        = f.name) ∧
    (∀ (fetch : String → Option Response) (r : Response) (v : JSVal),
      fetch (fetchTarget "https://example.com/maps/a.json") = some r → r.ok = true →
      JSON.parseText r.body = some v →
      (handleUrlFetch fetch { State.initial with
        urlInput := "https://example.com/maps/a.json", jsonInput := "\x7b\x7d" }).fileName =
        if (lastSegment (trim "https://example.com/maps/a.json".toList)).isEmpty then
          "Fetched JSON"
        else String.mk (lastSegment (trim "https://example.com/maps/a.json".toList))) ∧
    (∀ v : JSVal, JSON.parseText "\x7b\x7d" = some v →
      (handleJsonPaste { State.initial with
        urlInput := "https://example.com/maps/a.json", jsonInput := "\x7b\x7d" }).fileName
        = "Pasted JSON") ∧
    (∀ fetch : String → Option Response,
      (fetch (fetchTarget "https://example.com/maps/a.json") = none ∨
        ∃ r, fetch (fetchTarget "https://example.com/maps/a.json") = some r ∧
          (r.ok = false ∨ JSON.parseText r.body = none)) →
      (handleUrlFetch fetch { State.initial with
        urlInput := "https://example.com/maps/a.json", jsonInput := "\x7b\x7d" }).fileName
        = "") ∧
    (JSON.parseText "\x7b\x7d" = none →
      (handleJsonPaste { State.initial with
        urlInput := "https://example.com/maps/a.json", jsonInput := "\x7b\x7d" }).fileName
        = "") ∧
    (handleUrlFetch (fun _ => some ⟨true, 200, "\x7b\x7d"⟩)
      { State.initial with urlInput := "https://example.com" }).fileName = "example.com" ∧
    (handleUrlFetch (fun _ => some ⟨true, 200, "\x7b\x7d"⟩)
      { State.initial with urlInput := "https://example.com/maps/a.json" }).fileName
      = "a.json" :=
  ingestion_label { State.initial with
    urlInput := "https://example.com/maps/a.json", jsonInput := "\x7b\x7d" }

/-- C14, instance: the input ` https://paste.cytooxien.de/abcd ` with white space
around it. -/
theorem fetchTarget_rewrites_witness :
    ((∃ rest, trim " https://paste.cytooxien.de/abcd ".toList = pasteHost ++ rest) →
      (¬ ∃ a b, trim " https://paste.cytooxien.de/abcd ".toList = a ++ rawMarker ++ b) →
      ∃ pre id, trim " https://paste.cytooxien.de/abcd ".toList = pre ++ '/' :: id ∧
        '/' ∉ id ∧
        fetchTarget " https://paste.cytooxien.de/abcd "
          = String.mk (pasteHost ++ "raw/".toList ++ id)) ∧
    (¬ ((∃ rest, trim " https://paste.cytooxien.de/abcd ".toList = pasteHost ++ rest) ∧
        ¬ ∃ a b, trim " https://paste.cytooxien.de/abcd ".toList = a ++ rawMarker ++ b) →
      fetchTarget " https://paste.cytooxien.de/abcd "
        = String.mk (trim " https://paste.cytooxien.de/abcd ".toList)) ∧
    fetchTarget "https://paste.cytooxien.de/abcd" = "https://paste.cytooxien.de/raw/abcd" :=
  fetchTarget_rewrites " https://paste.cytooxien.de/abcd "

end EasyConfig
